import Mathlib

/-!
Shallow embedding of the AI-Word-Recognition pipeline core
(`src/audio_processor.py`, `src/profanity_detector.py`,
`src/enhanced/enhanced_profanity_detector.py`, `src/adaptive_training_module.py`,
`src/video_processor.py`, `src/enhanced/enhanced_video_processor.py`).

Modelling conventions:
* Python floats are modelled as `ℚ` (all arithmetic in the embedded core is
  exact decimal arithmetic, divisions by character counts and by 1000).
* Audio lengths are carried in integer milliseconds exactly as `len(audio)`
  gives them in pydub; the second-valued tuples the source returns divide by
  1000, modelled as exact division in `ℚ`.
* Text is modelled as `List Char`; `str.lower` is `Char.toLower` (identity on
  the CJK characters appearing in the dictionaries, lowercasing on ASCII,
  matching CPython on every character that occurs in this repository).
* External collaborators (pydub audio decoding, speech recognition, sklearn,
  file I/O) are either oracles passed as parameters or booleans/rationals
  standing for their observable result, exactly at the interface where the
  Python code consumes them.
* Python `try/except` blocks that swallow every exception and return a default
  are modelled by returning that default on the paths where the wrapped code
  raises (noted at each site).
-/

namespace WordRecog

/-! ## Generic helpers mirroring Python built-ins -/

/-- Model of `list(set(xs))`: deduplication keeping the first occurrence of
each element.  CPython's set iteration order is unspecified (hash based); the
first-occurrence order is one concrete realisation, and every theorem below
that depends on it is robust to reordering (noted at the use sites). -/
def pySet {α : Type} [DecidableEq α] (l : List α) : List α :=
  l.foldl (fun acc x => if x ∈ acc then acc else acc ++ [x]) []

/-- Model of Python `max(xs)` on a list known to be nonempty at the call site
(`max` of the head and the tail). -/
def pyMax (l : List ℚ) : ℚ :=
  match l with
  | [] => 0
  | c :: cs => cs.foldl max c

/-- Model of `str.lower` over the characters that occur in this repository. -/
def pyLower (l : List Char) : List Char :=
  l.map Char.toLower

/-- Number of iterations of Python `range(0, stop, step)` for `step > 0`:
the count of `k` with `k * step < stop`, i.e. `⌈stop / step⌉`. -/
def pyRangeCount (stop step : ℕ) : ℕ :=
  (stop + step - 1) / step

/-! ## TimelineChunker — `AudioProcessor.split_audio_chunks` and
`AudioProcessor.split_audio_with_overlap` (`src/audio_processor.py`).

The pydub decode (`AudioSegment.from_wav`) is external; its observable result
is the audio length in milliseconds, passed here as `audioLenMs`.  The chunk
file paths the source writes are irrelevant to the claims and omitted; each
window is the `(start_time, end_time)` pair of its tuple. -/

/-- Millisecond backbone of `split_audio_chunks`: windows
`[k·W·1000, min((k+1)·W·1000, L))` for `k·W·1000 < L`.
`chunk_duration = 0` makes `range`'s step zero, raising `ValueError`, which
the surrounding `except` turns into `[]`. -/
def split_audio_chunks_ms (audioLenMs : ℕ) (chunk_duration : ℕ) : List (ℕ × ℕ) :=
  let chunk_length_ms := chunk_duration * 1000
  if chunk_length_ms = 0 then []
  else
    (List.range (pyRangeCount audioLenMs chunk_length_ms)).map fun k =>
      (k * chunk_length_ms, min (k * chunk_length_ms + chunk_length_ms) audioLenMs)

/-- `split_audio_chunks` as the source returns it: second-valued windows,
each millisecond bound divided by 1000. -/
def split_audio_chunks (audioLenMs : ℕ) (chunk_duration : ℕ) : List (ℚ × ℚ) :=
  (split_audio_chunks_ms audioLenMs chunk_duration).map fun p =>
    ((p.1 : ℚ) / 1000, (p.2 : ℚ) / 1000)

/-- Millisecond backbone of `split_audio_with_overlap`: the step is
`segment_duration*1000 - overlap_duration*1000`.  When the step is zero,
`range` raises `ValueError` and the surrounding `except` returns `[]`; when
the step is negative, `range(0, L, step)` is empty, so the loop body never
runs and the function returns `[]` as well. -/
def split_audio_with_overlap_ms (audioLenMs : ℕ)
    (segment_duration overlap_duration : ℕ) : List (ℕ × ℕ) :=
  let segment_length_ms := segment_duration * 1000
  let overlap_length_ms := overlap_duration * 1000
  let step : ℤ := (segment_length_ms : ℤ) - (overlap_length_ms : ℤ)
  if step ≤ 0 then []
  else
    (List.range (pyRangeCount audioLenMs step.toNat)).map fun k =>
      (k * step.toNat, min (k * step.toNat + segment_length_ms) audioLenMs)

/-- `split_audio_with_overlap` as the source returns it (seconds). -/
def split_audio_with_overlap (audioLenMs : ℕ)
    (segment_duration overlap_duration : ℕ) : List (ℚ × ℚ) :=
  (split_audio_with_overlap_ms audioLenMs segment_duration overlap_duration).map fun p =>
    ((p.1 : ℚ) / 1000, (p.2 : ℚ) / 1000)

/-! ## WordTimingEstimator — `AudioProcessor.find_word_timing_in_segment`
(`src/audio_processor.py`).

The pydub decode is again represented by the audio length in milliseconds.
`text.lower().find(target, start_pos)` is modelled by `findFrom`, and the
`while` loop advancing `start_pos = pos + 1` by `occAux`, with fuel
`text.length + 1`, enough for the cursor which strictly increases each
iteration. -/

/-- Index of the first position at which `tg` is a prefix of the haystack
(`str.find` without a start offset), or `none`. -/
def firstMatchIdx (tg : List Char) : List Char → Option ℕ
  | [] => if tg.isEmpty then some 0 else none
  | c :: cs =>
    if tg.isPrefixOf (c :: cs) then some 0 else (firstMatchIdx tg cs).map (· + 1)

/-- Model of `hay.find(tg, start)`: the first index `≥ start` at which `tg`
occurs in `hay`, or `none` (Python's `-1`). -/
def findFrom (tg hay : List Char) (start : ℕ) : Option ℕ :=
  if start > hay.length then none
  else (firstMatchIdx tg (hay.drop start)).map (· + start)

/-- The `while True` occurrence loop of `find_word_timing_in_segment`:
collect match positions left to right, restarting the search one character
past each match start. -/
def occAux (tg hay : List Char) (start : ℕ) : ℕ → List ℕ
  | 0 => []
  | fuel + 1 =>
    match findFrom tg hay start with
    | none => []
    | some p => p :: occAux tg hay (p + 1) fuel

/-- All match positions of `tg` in `hay`, as the source's cursor loop
produces them. -/
def occurrences (tg hay : List Char) : List ℕ :=
  occAux tg hay 0 (hay.length + 1)

/-- Per-term spoken-duration estimate of `find_word_timing_in_segment`
(also duplicated as `ProfanityDetector.estimate_word_duration`):
`≤ 2` characters → 0.6 s, `≤ 4` → 1.2 s, else 1.8 s. -/
def estimated_duration (target_word : List Char) : ℚ :=
  if target_word.length ≤ 2 then 6 / 10
  else if target_word.length ≤ 4 then 12 / 10
  else 18 / 10

/-- `find_word_timing_in_segment`: for every occurrence of the lowercased
target in the lowercased text, the relative start is
`(chars before / total chars) · segment_duration`, the relative end is
clipped to the segment duration, and both are shifted by the chunk's
absolute start.  An empty text makes the per-occurrence division raise
`ZeroDivisionError` (swallowed by the `except`, hence `[]`) when the target
is empty, and yields no occurrence at all otherwise, so the empty-text case
returns `[]` either way. -/
def find_word_timing_in_segment (audioLenMs : ℕ) (text target_word : List Char)
    (segment_start_time : ℚ) : List (ℚ × ℚ) :=
  let segment_duration : ℚ := (audioLenMs : ℚ) / 1000
  let est := estimated_duration target_word
  let text_lower := pyLower text
  let target_lower := pyLower target_word
  if text_lower.isEmpty then []
  else
    (occurrences target_lower text_lower).map fun (pos : ℕ) =>
      let relative_start : ℚ := ((pos : ℚ) / (text_lower.length : ℚ)) * segment_duration
      let relative_end : ℚ := min (relative_start + est) segment_duration
      (segment_start_time + relative_start, segment_start_time + relative_end)

/-! ## Lexical and fuzzy matchers — `ProfanityDetector` and
`EnhancedProfanityDetector`.

The `re` patterns of the source come in two shapes only: the base detector's
patterns are literal segments joined by `.*` (`gapSearch`), and the enhanced
detector's patterns are sequences of character classes (`classSearch`).  Both
searchers model `re.search` (match anywhere) as a boolean. -/

/-- Python's `\w` (`re.sub(r'[^\w\s]', '', …)`) restricted to the character
ranges that occur in this repository: ASCII alphanumerics, underscore, and
the CJK Unified Ideographs block (all of which are word characters for the
`re` module). -/
def isWordChar (c : Char) : Bool :=
  c.isAlphanum || c = '_' || (0x4E00 ≤ c.toNat && c.toNat ≤ 0x9FFF)

/-- The cleaning step of both fuzzy matchers:
`re.sub(r'[^\w\s]', '', text.lower())` — drop every character that is
neither a word character nor whitespace, after lowercasing. -/
def pyClean (text : List Char) : List Char :=
  (pyLower text).filter fun c => isWordChar c || c.isWhitespace

/-- Does a character-class pattern match a prefix of the text? -/
def classMatchesPrefix : List (List Char) → List Char → Bool
  | [], _ => true
  | _ :: _, [] => false
  | cls :: ps, c :: cs => cls.contains c && classMatchesPrefix ps cs

/-- `re.search` for a pure character-class pattern such as
`[靠考烤][北杯背悲]`: the class sequence matches at some position. -/
def classSearch (p : List (List Char)) : List Char → Bool
  | [] => classMatchesPrefix p []
  | c :: cs => classMatchesPrefix p (c :: cs) || classSearch p cs

/-- `re.search` for a pattern of literal segments joined by `.*`, such as
`考.*北` or `cao.*bei`: the segments occur in order, without overlap.  For a
boolean search, taking the earliest occurrence of each segment is complete. -/
def gapSearch : List (List Char) → List Char → Bool
  | [], _ => true
  | seg :: rest, t =>
    match firstMatchIdx seg t with
    | none => false
    | some i => gapSearch rest (t.drop (i + seg.length))

/-- Keys of `ProfanityDetector.profanity_words` (`src/profanity_detector.py`),
in dictionary insertion order (CPython preserves it); the `"beep"` action
tags are never read by the embedded core. -/
def profanity_words : List (List Char) :=
  ["幹".toList, "甘".toList, "干".toList,
   "幹你".toList, "操你".toList, "靠北".toList,
   "幹你娘".toList, "操你媽".toList, "衝三小".toList, "甘霖娘".toList,
   "幹哩娘".toList, "幹哩涼".toList, "幹尼娘".toList, "幹你涼".toList,
   "幹你老師".toList, "操你全家".toList, "幹你老母".toList, "白痴智障".toList,
   "幹你娘機掰".toList, "操你媽的逼".toList,
   "你好我是Google小姐".toList]

/-- Keys of `EnhancedProfanityDetector.profanity_words`
(`src/enhanced/enhanced_profanity_detector.py`), in insertion order. -/
def profanity_words_enh : List (List Char) :=
  ["幹".toList, "甘".toList, "干".toList,
   "幹你".toList, "操你".toList, "靠北".toList,
   "幹你娘".toList, "操你媽".toList, "衝三小".toList, "甘霖娘".toList,
   "幹哩娘".toList, "幹你老師".toList, "操你全家".toList,
   "你好我是Google小姐".toList]

/-- `ProfanityDetector.profanity_patterns`: each regex is literal segments
joined by `.*`, written here as the segment lists. -/
def profanity_patterns : List (List Char × List (List (List Char))) :=
  [("幹你娘".toList,
    [["幹".toList, "你".toList, "娘".toList],
     ["幹".toList, "娘".toList],
     ["干".toList, "你".toList, "娘".toList],
     ["乾".toList, "你".toList, "娘".toList],
     ["幹".toList, "泥".toList, "娘".toList],
     ["幹".toList, "妳".toList, "娘".toList]]),
   ("操你媽".toList,
    [["操".toList, "你".toList, "媽".toList],
     ["操".toList, "妳".toList, "媽".toList],
     ["草".toList, "你".toList, "媽".toList],
     ["操".toList, "你".toList, "馬".toList],
     ["操".toList, "媽".toList],
     ["操".toList, "你".toList, "母".toList]]),
   ("幹你老師".toList,
    [["幹".toList, "你".toList, "老".toList, "師".toList],
     ["幹".toList, "老".toList, "師".toList],
     ["乾".toList, "你".toList, "老".toList, "師".toList],
     ["幹".toList, "泥".toList, "老".toList, "師".toList]]),
   ("靠北".toList,
    [["靠".toList, "北".toList],
     ["考".toList, "北".toList],
     ["靠".toList, "杯".toList],
     ["cao".toList, "bei".toList]])]

/-- `EnhancedProfanityDetector.profanity_patterns`: each regex is a sequence
of character classes, written here as the class lists. -/
def profanity_patterns_enh : List (List Char × List (List (List Char))) :=
  [("幹你娘".toList,
    [[['幹', '干', '乾', '甘'], ['你', '泥', '妳', '尼'], ['娘', '涼', '良', '梁']]]),
   ("操你媽".toList,
    [[['操', '草', '曹'], ['你', '泥', '妳', '尼'], ['媽', '馬', '麻', '母', '嗎']]]),
   ("幹你老師".toList,
    [[['幹', '干', '乾', '甘'], ['你', '泥', '妳', '尼'], ['老'], ['師']]]),
   ("靠北".toList,
    [[['靠', '考', '烤'], ['北', '杯', '背', '悲']]])]

/-- `detect_profanity_basic` of either detector: the dictionary keys that
occur as a substring of the lowercased text, in dictionary order. -/
def detect_profanity_basic (words : List (List Char)) (text : List Char) :
    List (List Char) :=
  words.filter fun profanity => (firstMatchIdx profanity (pyLower text)).isSome

/-- The local `found_profanity` list that
`ProfanityDetector.detect_profanity_fuzzy` builds before its bare `return`:
for each canonical term, the patterns are tried in order and the first match
reports the term once (`break`). -/
def detect_profanity_fuzzy_found (text : List Char) : List (List Char) :=
  let text_clean := pyClean text
  profanity_patterns.filterMap fun tp =>
    if (tp.2.find? fun p => gapSearch p text_clean).isSome then some tp.1 else none

/-- `ProfanityDetector.detect_profanity_fuzzy`
(`src/profanity_detector.py`, line 109): the function body computes
`detect_profanity_fuzzy_found` and logs its matches, but the final statement
is a bare `return`, so the caller receives Python `None` — the computed list
is discarded. -/
def detect_profanity_fuzzy (text : List Char) : Option (List (List Char)) :=
  let _found_profanity := detect_profanity_fuzzy_found text
  none

/-- `EnhancedProfanityDetector.detect_profanity_fuzzy`: same loop over the
class patterns, and this version does return the list it builds. -/
def detect_profanity_fuzzy_enh (text : List Char) : List (List Char) :=
  let text_clean := pyClean text
  profanity_patterns_enh.filterMap fun tp =>
    if (tp.2.find? fun p => classSearch p text_clean).isSome then some tp.1 else none

/-! ## AdaptiveTrainingModule (`src/adaptive_training_module.py`).

The sklearn classifier, the `StandardScaler`, audio feature extraction and
pickle contents are external collaborators; they are abstracted as the type
parameters `F` (feature vector), `C` (fitted classifier), `S` (scaler state),
`H`/`D` (elements of `training_history` / `all_training_data`, which the
module never writes outside `load_model`) and the oracle functions in
`TrainEnv`. -/

/-- Distinguishable result dictionaries of the training entry points:
`{'accuracy': 0.0, 'error': 'insufficient_data'}`,
`{'accuracy': 0.0, 'error': 'insufficient_valid_data'}`,
`{'error': 'insufficient_new_data'}`, and the success dictionary. -/
inductive TrainResult : Type
  | insufficientData
  | insufficientValidData
  | insufficientNewData
  | ok (accuracy : ℚ) (sample_count profanity_count normal_count : ℕ)
deriving DecidableEq

/-- One element of an `annotations` list: `{'label': …, 'segment_path': …}`. -/
structure Ann where
  label : String
  segment_path : String
deriving DecidableEq

/-- Mutable fields of `AdaptiveTrainingModule` touched by the embedded
operations (the fixed feature parameters `sample_rate`/`n_mfcc` are only read
by the external feature extractor). -/
structure AdaptiveState (C S H D : Type) where
  training_history : List H
  all_training_data : List D
  feature_scaler : S
  audio_classifier : Option C
  is_trained : Bool
  training_accuracy : ℚ

/-- `AdaptiveTrainingModule.__init__` with a fresh scaler. -/
def AdaptiveState.init {C S H D : Type} (scaler0 : S) : AdaptiveState C S H D :=
  { training_history := []
    all_training_data := []
    feature_scaler := scaler0
    audio_classifier := none
    is_trained := false
    training_accuracy := 0 }

/-- External collaborators consumed by the training module. -/
structure TrainEnv (F C S : Type) where
  extract_simple_features : String → F
  fit_transform : List F → S × List F
  scaler_transform : S → List F → List F
  rf_fit : List F → List ℕ → C
  rf_score : C → List F → List ℕ → ℚ

/-- The label test `annotation['label'] in ['profanity', 'normal']`. -/
def validLabel (a : Ann) : Bool :=
  a.label = "profanity" || a.label = "normal"

/-- `quick_train_from_annotations`: fewer than 4 annotations →
`insufficient_data`; fewer than 4 validly labelled ones →
`insufficient_valid_data`; otherwise fit the scaler and the classifier on the
batch, record the self-evaluated accuracy and set `is_trained`. -/
def quick_train_from_annotations {F C S H D : Type} (env : TrainEnv F C S)
    (st : AdaptiveState C S H D) (anns : List Ann) :
    TrainResult × AdaptiveState C S H D :=
  if anns.length < 4 then (.insufficientData, st)
  else
    let valid := anns.filter validLabel
    let features_list := valid.map fun a => env.extract_simple_features a.segment_path
    let labels_list := valid.map fun a => if a.label = "profanity" then (1 : ℕ) else 0
    if features_list.length < 4 then (.insufficientValidData, st)
    else
      let fitted := env.fit_transform features_list
      let clf := env.rf_fit fitted.2 labels_list
      let accuracy := env.rf_score clf fitted.2 labels_list
      (.ok accuracy features_list.length labels_list.sum
        (labels_list.length - labels_list.sum),
       { st with feature_scaler := fitted.1, audio_classifier := some clf,
                 training_accuracy := accuracy, is_trained := true })

/-- `incremental_train`: with no trained model it trains from scratch;
otherwise it extracts the new batch's features, errors with
`insufficient_new_data` below 2 valid annotations, and then — despite its
name — calls `quick_train_from_annotations` on the new batch only (the
scaled `X_new` is computed and discarded). -/
def incremental_train {F C S H D : Type} (env : TrainEnv F C S)
    (st : AdaptiveState C S H D) (new_annotations : List Ann) :
    TrainResult × AdaptiveState C S H D :=
  if !st.is_trained then quick_train_from_annotations env st new_annotations
  else
    let valid := new_annotations.filter validLabel
    let new_features := valid.map fun a => env.extract_simple_features a.segment_path
    if new_features.length < 2 then (.insufficientNewData, st)
    else
      let _X_new := env.scaler_transform st.feature_scaler new_features
      quick_train_from_annotations env st new_annotations

/-- The dictionary recovered by `pickle.load` in `load_model`; either `.get`
key may be absent. -/
structure LoadedModelData (H D : Type) where
  training_history : Option (List H)
  all_training_data : Option (List D)

/-- `load_model`: a failed open/unpickle (modelled as `none`) is swallowed by
the bare `except` and reported as `False` with no field assigned; on success
only `training_history` and `all_training_data` are restored (the commented
`# ... 載入模型 ...` line is where the classifier fields would have been
assigned) and the function reports `True`. -/
def load_model {C S H D : Type} (st : AdaptiveState C S H D)
    (readResult : Option (LoadedModelData H D)) : AdaptiveState C S H D × Bool :=
  match readResult with
  | none => (st, false)
  | some d =>
    ({ st with training_history := d.training_history.getD []
               all_training_data := d.all_training_data.getD [] }, true)

/-! ## Detection fusion — `ProfanityDetector.detect_profanity` and
`EnhancedProfanityDetector.detect_profanity`. -/

/-- The three values appended to `methods_used`. -/
inductive Method : Type
  | basic_text
  | fuzzy_text
  | adaptive_audio
deriving DecidableEq

/-- The detector-level configuration read by `detect_profanity`:
`adaptive_weight`, `use_adaptive_detection` and the trainer's
`is_trained` / `training_accuracy` status fields. -/
structure DetectorCfg where
  adaptive_weight : ℚ
  use_adaptive_detection : Bool
  is_trained : Bool
  training_accuracy : ℚ
deriving DecidableEq

/-- `detect_profanity_adaptive` (identical in both detector classes): an
untrained or disabled scorer yields `([], 0.0)`; otherwise the external
probability (`prob`, what `predict_profanity_probability` returns — `0.0`
when its own `except` fires) is banded, and only `> 0.4` counts as a hit.  A
raised exception inside the banding is impossible here, so the outer
`except → ([], 0.0)` path is only the guard shown. -/
def detect_profanity_adaptive (cfg : DetectorCfg) (prob : ℚ) :
    List (List Char) × ℚ :=
  if !cfg.use_adaptive_detection || !cfg.is_trained then ([], 0)
  else if prob > 7 / 10 then (["adaptive_detection".toList], prob)
  else if prob > 4 / 10 then (["adaptive_detection".toList], prob)
  else ([], prob)

/-- The marker string `'訓練模型檢測'` appended for adaptive hits. -/
def training_marker : List Char := "訓練模型檢測".toList

/-- Fusion weight per method: `adaptive_weight` when `'adaptive' in method`
(only `'adaptive_audio'` contains it), else `1 - adaptive_weight`. -/
def fusionWeight (w : ℚ) : Method → ℚ
  | .adaptive_audio => w
  | _ => 1 - w

/-- The confidence combination step of `detect_profanity`, reached when
`confidence_scores` is nonempty: weighted average when the weight and
confidence counts agree, otherwise `max(confidence_scores)`. -/
def fuseConfidence (w : ℚ) (confidence_scores : List ℚ)
    (methods_used : List Method) : ℚ :=
  let weights := methods_used.map (fusionWeight w)
  if weights.length = confidence_scores.length then
    ((weights.zip confidence_scores).map fun p => p.1 * p.2).sum / weights.sum
  else pyMax confidence_scores

/-- The result dictionary of `detect_profanity`. -/
structure DetectionResult where
  found_profanity : List (List Char)
  confidence : ℚ
  methods_used : List Method
  adaptive_probability : ℚ
deriving DecidableEq

/-- The accumulation both `detect_profanity` versions perform over
`all_detections` / `confidence_scores` / `methods_used`: each of the three
methods, when it produced a hit, appends its matched terms, its base
confidence (0.8 / 0.6 / `prob × accuracy`) and its method tag in lock step;
`found_profanity` is `list(set(all_detections))` and the overall confidence
is `fuseConfidence` when at least one score was collected.  Returns
`(found_profanity, confidence, methods_used)`. -/
def assembleDetection (w : ℚ) (basicHit fuzzyHit adaptHit : Bool)
    (basic_results fuzzy_results : List (List Char)) (adaptive_conf : ℚ) :
    List (List Char) × ℚ × List Method :=
  let all_detections :=
    (if basicHit then basic_results else []) ++
    (if fuzzyHit then fuzzy_results else []) ++
    (if adaptHit then [training_marker] else [])
  let confidence_scores :=
    (if basicHit then [(8 : ℚ) / 10] else []) ++
    (if fuzzyHit then [(6 : ℚ) / 10] else []) ++
    (if adaptHit then [adaptive_conf] else [])
  let methods_used : List Method :=
    (if basicHit then [.basic_text] else []) ++
    (if fuzzyHit then [.fuzzy_text] else []) ++
    (if adaptHit then [.adaptive_audio] else [])
  (if all_detections.isEmpty then [] else pySet all_detections,
   if all_detections.isEmpty then 0
   else if confidence_scores.isEmpty then 0
   else fuseConfidence w confidence_scores methods_used,
   methods_used)

/-- `EnhancedProfanityDetector.detect_profanity`.  `audioPresent` models
`audio_segment_path and os.path.exists(audio_segment_path)`; `prob` is the
external classifier probability consumed by `detect_profanity_adaptive`. -/
def detect_profanity_enh (cfg : DetectorCfg) (text : List Char)
    (audioPresent : Bool) (prob : ℚ) (use_fuzzy : Bool) : DetectionResult :=
  let basic_results := detect_profanity_basic profanity_words_enh text
  let fuzzy_results := detect_profanity_fuzzy_enh text
  let adaptive := detect_profanity_adaptive cfg prob
  let basicHit := !text.isEmpty && !basic_results.isEmpty
  let fuzzyHit := !text.isEmpty && use_fuzzy && !fuzzy_results.isEmpty
  let adaptHit := audioPresent && !adaptive.1.isEmpty
  let assembled := assembleDetection cfg.adaptive_weight basicHit fuzzyHit
    adaptHit basic_results fuzzy_results (adaptive.2 * cfg.training_accuracy)
  { found_profanity := assembled.1
    confidence := assembled.2.1
    methods_used := assembled.2.2
    adaptive_probability := if audioPresent then adaptive.2 else 0 }

/-- `ProfanityDetector.detect_profanity`: identical fusion, but over the
base dictionary, with the fuzzy step receiving the `None` that
`detect_profanity_fuzzy` returns (so the fuzzy branch can never fire), and
with `adaptive_probability` initialised to `0.75` instead of `0.0`. -/
def detect_profanity (cfg : DetectorCfg) (text : List Char)
    (audioPresent : Bool) (prob : ℚ) (use_fuzzy : Bool) : DetectionResult :=
  let basic_results := detect_profanity_basic profanity_words text
  let fuzzy_results := detect_profanity_fuzzy text
  let adaptive := detect_profanity_adaptive cfg prob
  let basicHit := !text.isEmpty && !basic_results.isEmpty
  let fuzzyHit := !text.isEmpty && use_fuzzy &&
    (match fuzzy_results with
     | some l => !l.isEmpty
     | none => false)
  let adaptHit := audioPresent && !adaptive.1.isEmpty
  let assembled := assembleDetection cfg.adaptive_weight basicHit fuzzyHit
    adaptHit basic_results (fuzzy_results.getD [])
    (adaptive.2 * cfg.training_accuracy)
  { found_profanity := assembled.1
    confidence := assembled.2.1
    methods_used := assembled.2.2
    adaptive_probability := if audioPresent then adaptive.2 else 3 / 4 }

/-! ## Detector object state — `enable_adaptive_detection`
(`src/profanity_detector.py`). -/

/-- The adaptive-related state of a `ProfanityDetector` instance. -/
structure ProfDetectorState (C S H D : Type) where
  use_adaptive_detection : Bool
  adaptive_weight : ℚ
  adaptive_trainer : AdaptiveState C S H D

/-- `ProfanityDetector.__init__`'s adaptive-related fields:
`use_adaptive_detection = False`, `adaptive_weight = 0.7`, fresh trainer. -/
def ProfDetectorState.init {C S H D : Type} (scaler0 : S) :
    ProfDetectorState C S H D :=
  { use_adaptive_detection := false
    adaptive_weight := 7 / 10
    adaptive_trainer := AdaptiveState.init scaler0 }

/-- The `DetectorCfg` a detector instance presents to `detect_profanity`. -/
def ProfDetectorState.cfg {C S H D : Type} (det : ProfDetectorState C S H D) :
    DetectorCfg :=
  { adaptive_weight := det.adaptive_weight
    use_adaptive_detection := det.use_adaptive_detection
    is_trained := det.adaptive_trainer.is_trained
    training_accuracy := det.adaptive_trainer.training_accuracy }

/-- `enable_adaptive_detection`: when the path is given and exists
(`path_exists`) and `load_model` succeeds, switch `use_adaptive_detection`
on and report `True`; otherwise report `False`. -/
def enable_adaptive_detection {C S H D : Type} (det : ProfDetectorState C S H D)
    (path_exists : Bool) (readResult : Option (LoadedModelData H D)) :
    ProfDetectorState C S H D × Bool :=
  if path_exists then
    let lr := load_model det.adaptive_trainer readResult
    if lr.2 then
      ({ det with adaptive_trainer := lr.1, use_adaptive_detection := true }, true)
    else
      ({ det with adaptive_trainer := lr.1 }, false)
  else (det, false)

/-! ## MuteSegmentBuilder — the per-chunk loop of
`VideoProfanityFilter.process_video_segments` (`src/video_processor.py`) and
`EnhancedVideoProfanityFilter.process_video_segments_enhanced`
(`src/enhanced/enhanced_video_processor.py`).

One `ChunkObs` carries, per chunk `(chunk_path, start_time, end_time)`:
the observable results of the external collaborators for that chunk — the
transcribed text (`speech_to_text`, empty for "no speech recognised"), the
audio length of the written chunk file, the adaptive scorer's probability for
it, and (base pipeline only) the `check_segment_quality` verdict.  The chunk
file always exists at detection time, so `os.path.exists(chunk_path)` is
`True` inside the loop. -/

/-- One row appended to `profanity_segments`. -/
structure MuteSegment where
  start_time : ℚ
  end_time : ℚ
  duration : ℚ
  confidence : ℚ
  methods : List Method
  profanity : List (List Char)
deriving DecidableEq

/-- Configuration fields of the filter read by the segment loop. -/
structure PipelineCfg where
  detector : DetectorCfg
  precise_muting : Bool
  mute_padding : ℚ
  use_fuzzy_matching : Bool
deriving DecidableEq

/-- Per-chunk observable inputs (see the section comment). -/
structure ChunkObs where
  start_time : ℚ
  end_time : ℚ
  audioLenMs : ℕ
  text : List Char
  adaptive_prob : ℚ
  quality_ok : Bool
deriving DecidableEq

/-- The body shared by both pipelines once a chunk's detection result is in
hand: whole-window muting appends one segment per chunk; precise muting
appends, for every non-marker found term and every estimated timing, the
padded interval clipped back to the chunk's own bounds. -/
def buildSegmentsForChunk (cfg : PipelineCfg) (c : ChunkObs)
    (dr : DetectionResult) : List MuteSegment :=
  if dr.found_profanity.isEmpty then []
  else if cfg.precise_muting then
    (dr.found_profanity.filter (· != training_marker)).flatMap fun word =>
      (find_word_timing_in_segment c.audioLenMs c.text word c.start_time).map fun t =>
        let buffered_start := max c.start_time (t.1 - cfg.mute_padding)
        let buffered_end := min c.end_time (t.2 + cfg.mute_padding)
        { start_time := buffered_start
          end_time := buffered_end
          duration := buffered_end - buffered_start
          confidence := dr.confidence
          methods := dr.methods_used
          profanity := [word] }
  else
    [{ start_time := c.start_time
       end_time := c.end_time
       duration := c.end_time - c.start_time
       confidence := dr.confidence
       methods := dr.methods_used
       profanity := dr.found_profanity }]

/-- One iteration of the `process_video_segments_enhanced` loop. -/
def process_chunk_enh (cfg : PipelineCfg) (c : ChunkObs) : List MuteSegment :=
  buildSegmentsForChunk cfg c
    (detect_profanity_enh cfg.detector c.text true c.adaptive_prob
      cfg.use_fuzzy_matching)

/-- One iteration of the base `process_video_segments` loop: a failed
quality check or an empty transcription skips the chunk (`continue`). -/
def process_chunk (cfg : PipelineCfg) (c : ChunkObs) : List MuteSegment :=
  if !c.quality_ok then []
  else if c.text.isEmpty then []
  else
    buildSegmentsForChunk cfg c
      (detect_profanity cfg.detector c.text true c.adaptive_prob
        cfg.use_fuzzy_matching)

/-- `process_video_segments_enhanced`: the `profanity_segments` list is the
in-order concatenation of each chunk's contribution; no sort is applied
before it is returned (and `create_muted_video` applies none either). -/
def process_video_segments_enhanced (cfg : PipelineCfg)
    (chunks : List ChunkObs) : List MuteSegment :=
  (chunks.map (process_chunk_enh cfg)).flatten

/-- Base `process_video_segments`: same accumulation over the base per-chunk
step. -/
def process_video_segments (cfg : PipelineCfg) (chunks : List ChunkObs) :
    List MuteSegment :=
  (chunks.map (process_chunk cfg)).flatten

/-! ## Lemmas: weighted-average fusion stays in the unit interval -/

lemma zip_mul_sum_nonneg :
    ∀ (ws cs : List ℚ), (∀ x ∈ ws, 0 ≤ x) → (∀ c ∈ cs, 0 ≤ c) →
      0 ≤ ((ws.zip cs).map fun p => p.1 * p.2).sum := by
  intro ws
  induction ws with
  | nil => intro cs _ _; simp
  | cons w ws ih =>
    intro cs hw hc
    cases cs with
    | nil => simp
    | cons c cs =>
      simp only [List.zip_cons_cons, List.map_cons, List.sum_cons]
      have h1 : 0 ≤ w * c :=
        mul_nonneg (hw w (by simp)) (hc c (by simp))
      have h2 := ih cs (fun x hx => hw x (by simp [hx]))
        (fun x hx => hc x (by simp [hx]))
      linarith

lemma zip_mul_sum_le_sum :
    ∀ (ws cs : List ℚ), (∀ x ∈ ws, 0 ≤ x) → (∀ c ∈ cs, c ≤ 1) →
      ((ws.zip cs).map fun p => p.1 * p.2).sum ≤ ws.sum := by
  intro ws
  induction ws with
  | nil => intro cs _ _; simp
  | cons w ws ih =>
    intro cs hw hc
    cases cs with
    | nil =>
      simp only [List.zip_nil_right, List.map_nil, List.sum_nil, List.sum_cons]
      have h1 : 0 ≤ w := hw w (by simp)
      have h2 : (0 : ℚ) ≤ ws.sum :=
        List.sum_nonneg fun x hx => hw x (by simp [hx])
      linarith
    | cons c cs =>
      simp only [List.zip_cons_cons, List.map_cons, List.sum_cons]
      have h1 : w * c ≤ w :=
        mul_le_of_le_one_right (hw w (by simp)) (hc c (by simp))
      have h2 := ih cs (fun x hx => hw x (by simp [hx]))
        (fun x hx => hc x (by simp [hx]))
      linarith

lemma wavg_bounds (ws cs : List ℚ) (hw : ∀ x ∈ ws, 0 < x)
    (hc0 : ∀ c ∈ cs, 0 ≤ c) (hc1 : ∀ c ∈ cs, c ≤ 1) (hne : ws ≠ []) :
    0 ≤ ((ws.zip cs).map fun p => p.1 * p.2).sum / ws.sum ∧
      ((ws.zip cs).map fun p => p.1 * p.2).sum / ws.sum ≤ 1 := by
  have hsum : 0 < ws.sum := List.sum_pos ws hw hne
  have hup := zip_mul_sum_le_sum ws cs (fun x hx => le_of_lt (hw x hx)) hc1
  have hlo := zip_mul_sum_nonneg ws cs (fun x hx => le_of_lt (hw x hx)) hc0
  constructor
  · exact div_nonneg hlo (le_of_lt hsum)
  · rw [div_le_one hsum]; exact hup

lemma foldl_max_bounds :
    ∀ (cs : List ℚ) (a : ℚ), 0 ≤ a → a ≤ 1 → (∀ c ∈ cs, 0 ≤ c ∧ c ≤ 1) →
      0 ≤ cs.foldl max a ∧ cs.foldl max a ≤ 1 := by
  intro cs
  induction cs with
  | nil => intro a h0 h1 _; exact ⟨h0, h1⟩
  | cons c cs ih =>
    intro a h0 h1 hc
    simp only [List.foldl_cons]
    have hcb := hc c (by simp)
    exact ih (max a c) (le_max_of_le_left h0) (max_le h1 hcb.2)
      fun x hx => hc x (by simp [hx])

lemma pyMax_bounds (cs : List ℚ) (h : ∀ c ∈ cs, 0 ≤ c ∧ c ≤ 1)
    (hne : cs ≠ []) : 0 ≤ pyMax cs ∧ pyMax cs ≤ 1 := by
  match cs with
  | [] => exact absurd rfl hne
  | c :: cs =>
    have hcb := h c (by simp)
    exact foldl_max_bounds cs c hcb.1 hcb.2 fun x hx => h x (by simp [hx])

lemma fusionWeight_pos (w : ℚ) (hw : 0 < w) (hw1 : w < 1) (m : Method) :
    0 < fusionWeight w m := by
  cases m <;> simp [fusionWeight] <;> linarith

lemma fuseConfidence_bounds (w : ℚ) (cs : List ℚ) (ms : List Method)
    (hw : 0 < w) (hw1 : w < 1) (hc : ∀ c ∈ cs, 0 ≤ c ∧ c ≤ 1)
    (hne : cs ≠ []) :
    0 ≤ fuseConfidence w cs ms ∧ fuseConfidence w cs ms ≤ 1 := by
  unfold fuseConfidence
  by_cases hlen : (ms.map (fusionWeight w)).length = cs.length
  · simp only [hlen, if_true]
    apply wavg_bounds
    · intro x hx
      obtain ⟨m, _, rfl⟩ := List.mem_map.mp hx
      exact fusionWeight_pos w hw hw1 m
    · exact fun c hcs => (hc c hcs).1
    · exact fun c hcs => (hc c hcs).2
    · intro hmaps
      apply hne
      have : cs.length = 0 := by
        rw [← hlen, hmaps]; rfl
      exact List.length_eq_zero.mp this
  · simp only [hlen, if_false]
    exact pyMax_bounds cs hc hne

lemma assemble_conf_bounds (w adaptive_conf : ℚ)
    (basicHit fuzzyHit adaptHit : Bool)
    (basic_results fuzzy_results : List (List Char))
    (hw : 0 < w) (hw1 : w < 1) (hac0 : 0 ≤ adaptive_conf)
    (hac1 : adaptive_conf ≤ 1) :
    0 ≤ (assembleDetection w basicHit fuzzyHit adaptHit basic_results
        fuzzy_results adaptive_conf).2.1 ∧
      (assembleDetection w basicHit fuzzyHit adaptHit basic_results
        fuzzy_results adaptive_conf).2.1 ≤ 1 := by
  unfold assembleDetection
  cases basicHit <;> cases fuzzyHit <;> cases adaptHit <;>
    simp only [Bool.false_eq_true, if_true, if_false, List.nil_append,
      List.append_nil, List.isEmpty_nil, List.isEmpty_cons, ite_true,
      ite_false, List.cons_append] <;>
    (repeat' split) <;>
    first
      | exact ⟨le_refl 0, by norm_num⟩
      | (refine fuseConfidence_bounds w _ _ hw hw1 (fun c hcs => ?_) (by simp)
         fin_cases hcs <;> (first | exact ⟨hac0, hac1⟩ | norm_num))

lemma adaptive_prob_bounds (cfg : DetectorCfg) (prob : ℚ)
    (hp0 : 0 ≤ prob) (hp1 : prob ≤ 1) :
    0 ≤ (detect_profanity_adaptive cfg prob).2 ∧
      (detect_profanity_adaptive cfg prob).2 ≤ 1 := by
  unfold detect_profanity_adaptive
  split_ifs <;> simp <;> constructor <;> linarith

/-- C6: for every combination of detection hits (lexical base confidence
0.8, fuzzy base 0.6, adaptive base `rawProbability × accuracy` with both
factors in `[0,1]`) and every `adaptive_weight` in `(0,1)`, the fused
confidence computed by `detect_profanity` — weighted average over the
methods that actually hit, with the mismatched-count fallback to the
maximum base confidence — lies within `[0,1]`, in both the enhanced and the
base detector. -/
theorem C6_fused_confidence_unit_interval (cfg : DetectorCfg)
    (text : List Char) (audioPresent : Bool) (prob : ℚ) (use_fuzzy : Bool)
    (hw : 0 < cfg.adaptive_weight) (hw1 : cfg.adaptive_weight < 1)
    (hp0 : 0 ≤ prob) (hp1 : prob ≤ 1)
    (ha0 : 0 ≤ cfg.training_accuracy) (ha1 : cfg.training_accuracy ≤ 1) :
    (0 ≤ (detect_profanity_enh cfg text audioPresent prob use_fuzzy).confidence ∧
      (detect_profanity_enh cfg text audioPresent prob use_fuzzy).confidence ≤ 1) ∧
    (0 ≤ (detect_profanity cfg text audioPresent prob use_fuzzy).confidence ∧
      (detect_profanity cfg text audioPresent prob use_fuzzy).confidence ≤ 1) := by
  have hadp := adaptive_prob_bounds cfg prob hp0 hp1
  have hac0 : 0 ≤ (detect_profanity_adaptive cfg prob).2 * cfg.training_accuracy :=
    mul_nonneg hadp.1 ha0
  have hac1 : (detect_profanity_adaptive cfg prob).2 * cfg.training_accuracy ≤ 1 := by
    nlinarith [hadp.1, hadp.2]
  constructor
  · simp only [detect_profanity_enh]
    exact assemble_conf_bounds _ _ _ _ _ _ _ hw hw1 hac0 hac1
  · simp only [detect_profanity]
    exact assemble_conf_bounds _ _ _ _ _ _ _ hw hw1 hac0 hac1

theorem C6_witness :
    ((0 : ℚ) < 1 / 2 ∧ (1 : ℚ) / 2 < 1 ∧ (0 : ℚ) ≤ 8 / 10 ∧
      (8 : ℚ) / 10 ≤ 1 ∧ (0 : ℚ) ≤ 9 / 10 ∧ (9 : ℚ) / 10 ≤ 1) ∧
    ((0 ≤ (detect_profanity_enh ⟨1 / 2, true, true, 9 / 10⟩
          ("幹靠北".toList) true (8 / 10) true).confidence ∧
        (detect_profanity_enh ⟨1 / 2, true, true, 9 / 10⟩
          ("幹靠北".toList) true (8 / 10) true).confidence ≤ 1) ∧
      (0 ≤ (detect_profanity ⟨1 / 2, true, true, 9 / 10⟩
          ("幹靠北".toList) true (8 / 10) true).confidence ∧
        (detect_profanity ⟨1 / 2, true, true, 9 / 10⟩
          ("幹靠北".toList) true (8 / 10) true).confidence ≤ 1)) :=
  ⟨by norm_num,
   C6_fused_confidence_unit_interval ⟨1 / 2, true, true, 9 / 10⟩
     ("幹靠北".toList) true (8 / 10) true (by norm_num) (by norm_num)
     (by norm_num) (by norm_num) (by norm_num) (by norm_num)⟩

/-- C10: when the only detection hit is a lexical match (the fuzzy matcher
and the adaptive scorer produce no hit) and `adaptive_weight = 0.3`, the
fused confidence is exactly 0.8 — the single-method weighted average
reduces to that method's base confidence. -/
theorem C10_single_lexical_hit (cfg : DetectorCfg) (text : List Char)
    (audioPresent : Bool) (prob : ℚ) (use_fuzzy : Bool)
    (hwgt : cfg.adaptive_weight = 3 / 10)
    (htext : text.isEmpty = false)
    (hb : (detect_profanity_basic profanity_words_enh text).isEmpty = false)
    (hfz : detect_profanity_fuzzy_enh text = [])
    (had : (detect_profanity_adaptive cfg prob).1 = []) :
    (detect_profanity_enh cfg text audioPresent prob use_fuzzy).confidence
      = 8 / 10 := by
  simp only [detect_profanity_enh, htext, hb, hfz, had, Bool.not_false,
    Bool.true_and, List.isEmpty_nil, Bool.not_true, Bool.and_false,
    Bool.false_and, Bool.and_true]
  rw [assembleDetection]
  simp only [if_true, if_false, Bool.false_eq_true, List.append_nil,
    List.nil_append, hb, Bool.false_eq_true]
  norm_num [fuseConfidence, fusionWeight, hwgt]

theorem C10_witness :
    ((DetectorCfg.mk (3 / 10) false false 0).adaptive_weight = 3 / 10 ∧
      ("幹".toList).isEmpty = false ∧
      (detect_profanity_basic profanity_words_enh "幹".toList).isEmpty = false ∧
      detect_profanity_fuzzy_enh "幹".toList = [] ∧
      (detect_profanity_adaptive (DetectorCfg.mk (3 / 10) false false 0) 0).1 = []) ∧
    (detect_profanity_enh (DetectorCfg.mk (3 / 10) false false 0)
      ("幹".toList) false 0 true).confidence = 8 / 10 :=
  ⟨⟨rfl, by decide, by decide, by decide, by decide⟩,
   C10_single_lexical_hit (DetectorCfg.mk (3 / 10) false false 0)
     ("幹".toList) false 0 true rfl (by decide) (by decide) (by decide)
     (by decide)⟩

/-! ## C4 — incremental training vs. full training on the new batch -/

/-- C4 counterexample: on an already-trained module, a batch with a single
valid annotation makes `incremental_train` answer
`{'error': 'insufficient_new_data'}` while `quick_train_from_annotations`
on the same batch answers `{'accuracy': 0.0, 'error': 'insufficient_data'}`
— the two entry points do not return the same result on every batch. -/
theorem C4_counterexample :
    let env : TrainEnv Unit Unit Unit :=
      { extract_simple_features := fun _ => ()
        fit_transform := fun _ => ((), [])
        scaler_transform := fun _ _ => []
        rf_fit := fun _ _ => ()
        rf_score := fun _ _ _ => 1 }
    let st : AdaptiveState Unit Unit Unit Unit :=
      { training_history := []
        all_training_data := []
        feature_scaler := ()
        audio_classifier := some ()
        is_trained := true
        training_accuracy := 1 }
    let anns : List Ann := [{ label := "profanity", segment_path := "a.wav" }]
    (incremental_train env st anns).1 = TrainResult.insufficientNewData ∧
      (quick_train_from_annotations env st anns).1 = TrainResult.insufficientData ∧
      TrainResult.insufficientNewData ≠ TrainResult.insufficientData := by
  refine ⟨rfl, rfl, by decide⟩

/-- C4 (amended): on an already-trained module, for every batch containing
at least two valid annotations, `incremental_train` returns exactly the
result and module state of `quick_train_from_annotations` applied to the
new batch alone — previously accumulated samples are discarded unless
re-supplied; with fewer than two valid annotations it instead returns the
distinct `insufficient_new_data` error and leaves the state unchanged. -/
theorem C4_incremental_is_full_on_new_batch {F C S H D : Type}
    (env : TrainEnv F C S) (st : AdaptiveState C S H D)
    (new_annotations : List Ann) (ht : st.is_trained = true) :
    (2 ≤ (new_annotations.filter validLabel).length →
      incremental_train env st new_annotations =
        quick_train_from_annotations env st new_annotations) ∧
    ((new_annotations.filter validLabel).length < 2 →
      incremental_train env st new_annotations =
        (TrainResult.insufficientNewData, st)) := by
  constructor
  · intro hv
    unfold incremental_train
    rw [ht]
    simp only [Bool.not_true, Bool.false_eq_true, if_false]
    rw [if_neg]
    simp only [List.length_map]
    omega
  · intro hv
    unfold incremental_train
    rw [ht]
    simp only [Bool.not_true, Bool.false_eq_true, if_false]
    rw [if_pos]
    simp only [List.length_map]
    omega

theorem C4_witness :
    let env : TrainEnv Unit Unit Unit :=
      { extract_simple_features := fun _ => ()
        fit_transform := fun _ => ((), [])
        scaler_transform := fun _ _ => []
        rf_fit := fun _ _ => ()
        rf_score := fun _ _ _ => 1 }
    let st : AdaptiveState Unit Unit Unit Unit :=
      { training_history := []
        all_training_data := []
        feature_scaler := ()
        audio_classifier := some ()
        is_trained := true
        training_accuracy := 1 }
    let anns : List Ann :=
      [{ label := "profanity", segment_path := "a.wav" },
       { label := "normal", segment_path := "b.wav" }]
    st.is_trained = true ∧ 2 ≤ (anns.filter validLabel).length ∧
      incremental_train env st anns = quick_train_from_annotations env st anns := by
  refine ⟨rfl, by decide, ?_⟩
  exact (C4_incremental_is_full_on_new_batch _ _ _ rfl).1 (by decide)

/-! ## C5 — `load_model` restores no classifier state -/

/-- C5: `load_model` leaves `audio_classifier`, `is_trained` and
`training_accuracy` unchanged for every module state and every read model
file (it restores only `training_history` and `all_training_data`), so
after `enable_adaptive_detection` succeeds on a freshly initialised
detector, `is_trained` is still `False` and `detect_profanity_adaptive`
returns `([], 0.0)` for every probability the external classifier would
produce — loading a persisted model never enables adaptive scoring. -/
theorem C5_load_model_frame {C S H D : Type} (st : AdaptiveState C S H D)
    (readResult : Option (LoadedModelData H D)) (scaler0 : S)
    (path_exists : Bool) (rr : Option (LoadedModelData H D))
    (hok : (enable_adaptive_detection
      (ProfDetectorState.init (C := C) (H := H) (D := D) scaler0)
      path_exists rr).2 = true) :
    ((load_model st readResult).1.audio_classifier = st.audio_classifier ∧
      (load_model st readResult).1.is_trained = st.is_trained ∧
      (load_model st readResult).1.training_accuracy = st.training_accuracy) ∧
    ((enable_adaptive_detection
        (ProfDetectorState.init (C := C) (H := H) (D := D) scaler0)
        path_exists rr).1.adaptive_trainer.is_trained = false ∧
      ∀ prob : ℚ,
        detect_profanity_adaptive
          ((enable_adaptive_detection
            (ProfDetectorState.init (C := C) (H := H) (D := D) scaler0)
            path_exists rr).1.cfg) prob = ([], 0)) := by
  constructor
  · cases readResult <;> simp [load_model]
  · have hframe : (enable_adaptive_detection
        (ProfDetectorState.init (C := C) (H := H) (D := D) scaler0)
        path_exists rr).1.adaptive_trainer.is_trained = false := by
      unfold enable_adaptive_detection
      cases path_exists
      · simp [ProfDetectorState.init, AdaptiveState.init]
      · cases rr <;>
          simp [load_model, ProfDetectorState.init, AdaptiveState.init]
    refine ⟨hframe, fun prob => ?_⟩
    simp [detect_profanity_adaptive, ProfDetectorState.cfg, hframe]

theorem C5_witness :
    ((enable_adaptive_detection
        (ProfDetectorState.init (C := Unit) (H := Unit) (D := Unit) ())
        true (some { training_history := some [], all_training_data := some [] })).2
      = true) ∧
    ((load_model (AdaptiveState.init (C := Unit) (H := Unit) (D := Unit) ())
        (some { training_history := some [], all_training_data := some [] })).1.audio_classifier
      = (AdaptiveState.init (C := Unit) (H := Unit) (D := Unit) ()).audio_classifier ∧
      (load_model (AdaptiveState.init (C := Unit) (H := Unit) (D := Unit) ())
        (some { training_history := some [], all_training_data := some [] })).1.is_trained
      = (AdaptiveState.init (C := Unit) (H := Unit) (D := Unit) ()).is_trained ∧
      (load_model (AdaptiveState.init (C := Unit) (H := Unit) (D := Unit) ())
        (some { training_history := some [], all_training_data := some [] })).1.training_accuracy
      = (AdaptiveState.init (C := Unit) (H := Unit) (D := Unit) ()).training_accuracy) ∧
    ((enable_adaptive_detection
        (ProfDetectorState.init (C := Unit) (H := Unit) (D := Unit) ())
        true (some { training_history := some [], all_training_data := some [] })).1.adaptive_trainer.is_trained
      = false ∧
      ∀ prob : ℚ,
        detect_profanity_adaptive
          ((enable_adaptive_detection
            (ProfDetectorState.init (C := Unit) (H := Unit) (D := Unit) ())
            true (some { training_history := some [], all_training_data := some [] })).1.cfg)
          prob = ([], 0)) :=
  ⟨rfl,
   (C5_load_model_frame
      (AdaptiveState.init (C := Unit) (H := Unit) (D := Unit) ())
      (some { training_history := some [], all_training_data := some [] }) ()
      true (some { training_history := some [], all_training_data := some [] })
      rfl).1,
   (C5_load_model_frame
      (AdaptiveState.init (C := Unit) (H := Unit) (D := Unit) ())
      (some { training_history := some [], all_training_data := some [] }) ()
      true (some { training_history := some [], all_training_data := some [] })
      rfl).2⟩

/-! ## Arithmetic facts about `pyRangeCount` -/

lemma pyRangeCount_pos (stop step : ℕ) (hL : 0 < stop) (hW : 0 < step) :
    0 < pyRangeCount stop step := by
  unfold pyRangeCount
  rw [Nat.lt_iff_add_one_le, Nat.le_div_iff_mul_le hW]
  omega

lemma mul_lt_of_lt_pyRangeCount (stop step k : ℕ) (hW : 0 < step)
    (hk : k < pyRangeCount stop step) : k * step < stop := by
  unfold pyRangeCount at hk
  rw [Nat.lt_iff_add_one_le, Nat.le_div_iff_mul_le hW] at hk
  have hexp : (k + 1) * step = k * step + step := by ring
  omega

lemma le_pyRangeCount_mul (stop step : ℕ) (hW : 0 < step) :
    stop ≤ pyRangeCount stop step * step := by
  have hd : pyRangeCount stop step < pyRangeCount stop step + 1 :=
    Nat.lt_succ_self _
  unfold pyRangeCount at hd ⊢
  rw [Nat.div_lt_iff_lt_mul hW] at hd
  have hexp : ((stop + step - 1) / step + 1) * step
      = (stop + step - 1) / step * step + step := by ring
  omega

lemma getD_range_map {α : Type} (f : ℕ → α) (n i : ℕ) (d : α) (h : i < n) :
    (((List.range n).map f).getD i d) = f i := by
  rw [List.getD_eq_getElem?_getD, List.getElem?_map, List.getElem?_range h]
  rfl

/-! ## C8 — fixed-mode chunker -/

/-- C8: for positive audio length and positive `chunk_duration`, the
fixed-mode chunker outputs exactly the windows
`[k·W, min((k+1)·W, L))` (in milliseconds, `W = chunk_duration·1000`) while
`k·W < L`; these windows are nonempty, start at 0, are contiguous (each
window's end is the next window's start, so they are non-overlapping and
cover `[0, L)` exactly once), end at `L`, each has length at most `W`, and
the second-valued list the source returns is this list divided by 1000. -/
theorem C8_fixed_chunker (L W : ℕ) (hL : 0 < L) (hW : 0 < W) :
    split_audio_chunks_ms L W =
      (List.range (pyRangeCount L (W * 1000))).map
        (fun k => (k * (W * 1000), min (k * (W * 1000) + W * 1000) L)) ∧
    split_audio_chunks_ms L W ≠ [] ∧
    ((split_audio_chunks_ms L W).getD 0 (0, 0)).1 = 0 ∧
    ((split_audio_chunks_ms L W).getLast?.map Prod.snd) = some L ∧
    (∀ i, i + 1 < (split_audio_chunks_ms L W).length →
      ((split_audio_chunks_ms L W).getD i (0, 0)).2 =
        ((split_audio_chunks_ms L W).getD (i + 1) (0, 0)).1) ∧
    (∀ p ∈ split_audio_chunks_ms L W, p.1 < p.2 ∧ p.2 - p.1 ≤ W * 1000) ∧
    split_audio_chunks L W =
      (split_audio_chunks_ms L W).map
        (fun p => ((p.1 : ℚ) / 1000, (p.2 : ℚ) / 1000)) := by
  have hWms : 0 < W * 1000 := by positivity
  have hdef : split_audio_chunks_ms L W =
      (List.range (pyRangeCount L (W * 1000))).map
        (fun k => (k * (W * 1000), min (k * (W * 1000) + W * 1000) L)) := by
    unfold split_audio_chunks_ms
    rw [if_neg (by omega)]
  have hn : 0 < pyRangeCount L (W * 1000) := pyRangeCount_pos L _ hL hWms
  have hlen : (split_audio_chunks_ms L W).length = pyRangeCount L (W * 1000) := by
    rw [hdef]; simp
  refine ⟨hdef, ?_, ?_, ?_, ?_, ?_, rfl⟩
  · intro hnil
    rw [hnil] at hlen
    simp at hlen
    omega
  · rw [hdef, getD_range_map _ _ _ _ hn]
    simp
  · rw [hdef, List.getLast?_eq_getElem?]
    have hlen2 : ((List.range (pyRangeCount L (W * 1000))).map
        (fun k => (k * (W * 1000), min (k * (W * 1000) + W * 1000) L))).length
        = pyRangeCount L (W * 1000) := by simp
    rw [hlen2, List.getElem?_map, List.getElem?_range (by omega)]
    have hend : min ((pyRangeCount L (W * 1000) - 1) * (W * 1000) + W * 1000) L
        = L := by
      have h1 : (pyRangeCount L (W * 1000) - 1) * (W * 1000) + W * 1000
          = pyRangeCount L (W * 1000) * (W * 1000) := by
        have : pyRangeCount L (W * 1000)
            = (pyRangeCount L (W * 1000) - 1) + 1 := by omega
        calc (pyRangeCount L (W * 1000) - 1) * (W * 1000) + W * 1000
            = ((pyRangeCount L (W * 1000) - 1) + 1) * (W * 1000) := by ring
          _ = pyRangeCount L (W * 1000) * (W * 1000) := by rw [← this]
      rw [h1]
      exact min_eq_right (le_pyRangeCount_mul L _ hWms)
    simp [hend]
  · intro i hi
    rw [hlen] at hi
    rw [hdef, getD_range_map _ _ _ _ (by omega), getD_range_map _ _ _ _ (by omega)]
    have hnext : (i + 1) * (W * 1000) < L :=
      mul_lt_of_lt_pyRangeCount L _ _ hWms (by omega)
    have hstep : i * (W * 1000) + W * 1000 = (i + 1) * (W * 1000) := by ring
    simp only
    rw [hstep]
    exact min_eq_left (le_of_lt hnext)
  · intro p hp
    rw [hdef] at hp
    obtain ⟨k, hk, rfl⟩ := List.mem_map.mp hp
    rw [List.mem_range] at hk
    have hks : k * (W * 1000) < L := mul_lt_of_lt_pyRangeCount L _ _ hWms hk
    constructor
    · exact lt_min (by omega) hks
    · have : min (k * (W * 1000) + W * 1000) L ≤ k * (W * 1000) + W * 1000 :=
        min_le_left _ _
      omega

theorem C8_witness :
    0 < 25000 ∧ 0 < 10 ∧
    split_audio_chunks_ms 25000 10 =
      (List.range (pyRangeCount 25000 (10 * 1000))).map
        (fun k => (k * (10 * 1000), min (k * (10 * 1000) + 10 * 1000) 25000)) ∧
    ((split_audio_chunks_ms 25000 10).getLast?.map Prod.snd) = some 25000 :=
  ⟨by decide, by decide,
   (C8_fixed_chunker 25000 10 (by decide) (by decide)).1,
   (C8_fixed_chunker 25000 10 (by decide) (by decide)).2.2.2.1⟩

/-! ## C3 — overlap-mode chunker -/

/-- C3 counterexample: with a 17-second audio, `segment_duration = 10` and
`overlap_duration = 2`, the windows are `[0,10), [8,17), [16,17)`; the last
two consecutive windows share `17 - 16 = 1` second, not the claimed 2
seconds — and with `overlap_duration = 10` (step `0`) and `12` (step `< 0`)
the function returns the empty list instead of failing with a
configuration error. -/
theorem C3_counterexample :
    split_audio_with_overlap 17000 10 2 = [(0, 10), (8, 17), (16, 17)] ∧
    ((split_audio_with_overlap 17000 10 2).getD 1 (0, 0)).2 -
      ((split_audio_with_overlap 17000 10 2).getD 2 (0, 0)).1 = 1 ∧
    (1 : ℚ) ≠ 2 ∧
    split_audio_with_overlap 10000 10 10 = [] ∧
    split_audio_with_overlap 10000 10 12 = [] := by
  have hms : split_audio_with_overlap_ms 17000 10 2 =
      [(0, 10000), (8000, 17000), (16000, 17000)] := by decide
  have hsec : split_audio_with_overlap 17000 10 2 = [(0, 10), (8, 17), (16, 17)] := by
    rw [split_audio_with_overlap, hms]
    norm_num
  refine ⟨hsec, by rw [hsec]; norm_num [List.getD], by norm_num, ?_, ?_⟩
  · rw [split_audio_with_overlap]
    have : split_audio_with_overlap_ms 10000 10 10 = [] := by decide
    rw [this]
    rfl
  · rw [split_audio_with_overlap]
    have : split_audio_with_overlap_ms 10000 10 12 = [] := by decide
    rw [this]
    rfl

/-- C3 (amended): in overlap mode, successive window starts are exactly
`step = (segment_duration - overlap_duration)·1000` milliseconds apart, and
a pair of consecutive windows shares exactly `overlap_duration` seconds
whenever the earlier window is not clipped by the audio end
(`i·step + segment_duration·1000 ≤ L`); when `step ≤ 0`
(`segment_duration ≤ overlap_duration`) the function returns the empty
list — the internal `range` error is swallowed — rather than raising an
`InvalidConfig` error. -/
theorem C3_overlap_chunker (L s o : ℕ) :
    (s ≤ o → split_audio_with_overlap_ms L s o = []) ∧
    (o < s →
      ∀ i, i + 1 < (split_audio_with_overlap_ms L s o).length →
        ((split_audio_with_overlap_ms L s o).getD (i + 1) (0, 0)).1 =
          ((split_audio_with_overlap_ms L s o).getD i (0, 0)).1 +
            (s - o) * 1000) ∧
    (o < s →
      ∀ i, i + 1 < (split_audio_with_overlap_ms L s o).length →
        i * ((s - o) * 1000) + s * 1000 ≤ L →
        ((split_audio_with_overlap_ms L s o).getD i (0, 0)).2 =
          ((split_audio_with_overlap_ms L s o).getD (i + 1) (0, 0)).1 +
            o * 1000 ∧
        ((split_audio_with_overlap_ms L s o).getD (i + 1) (0, 0)).1 ≤
          ((split_audio_with_overlap_ms L s o).getD i (0, 0)).2) ∧
    split_audio_with_overlap L s o =
      (split_audio_with_overlap_ms L s o).map
        (fun p => ((p.1 : ℚ) / 1000, (p.2 : ℚ) / 1000)) := by
  refine ⟨?_, ?_, ?_, rfl⟩
  · intro hso
    simp only [split_audio_with_overlap_ms]
    rw [if_pos (by push_cast; omega)]
  · intro hos
    have hdef : split_audio_with_overlap_ms L s o =
        (List.range (pyRangeCount L ((s - o) * 1000))).map
          (fun k => (k * ((s - o) * 1000),
            min (k * ((s - o) * 1000) + s * 1000) L)) := by
      simp only [split_audio_with_overlap_ms]
      rw [if_neg (by push_cast; omega)]
      have htn : ((↑(s * 1000) : ℤ) - ↑(o * 1000)).toNat = (s - o) * 1000 := by
        omega
      rw [htn]
    intro i hi
    rw [hdef] at hi ⊢
    simp only [List.length_map, List.length_range] at hi
    rw [getD_range_map _ _ _ _ (by omega), getD_range_map _ _ _ _ (by omega)]
    simp only
    ring
  · intro hos
    have hdef : split_audio_with_overlap_ms L s o =
        (List.range (pyRangeCount L ((s - o) * 1000))).map
          (fun k => (k * ((s - o) * 1000),
            min (k * ((s - o) * 1000) + s * 1000) L)) := by
      simp only [split_audio_with_overlap_ms]
      rw [if_neg (by push_cast; omega)]
      have htn : ((↑(s * 1000) : ℤ) - ↑(o * 1000)).toNat = (s - o) * 1000 := by
        omega
      rw [htn]
    intro i hi hunclipped
    rw [hdef] at hi ⊢
    simp only [List.length_map, List.length_range] at hi
    rw [getD_range_map _ _ _ _ (by omega), getD_range_map _ _ _ _ (by omega)]
    simp only
    rw [min_eq_left hunclipped]
    have hexp : (i + 1) * ((s - o) * 1000) = i * ((s - o) * 1000) +
        (s - o) * 1000 := by ring
    omega

theorem C3_witness :
    2 < 10 ∧
    (∀ i, i + 1 < (split_audio_with_overlap_ms 18000 10 2).length →
      ((split_audio_with_overlap_ms 18000 10 2).getD (i + 1) (0, 0)).1 =
        ((split_audio_with_overlap_ms 18000 10 2).getD i (0, 0)).1 +
          (10 - 2) * 1000) ∧
    (∀ i, i + 1 < (split_audio_with_overlap_ms 18000 10 2).length →
      i * ((10 - 2) * 1000) + 10 * 1000 ≤ 18000 →
      ((split_audio_with_overlap_ms 18000 10 2).getD i (0, 0)).2 =
        ((split_audio_with_overlap_ms 18000 10 2).getD (i + 1) (0, 0)).1 +
          2 * 1000 ∧
      ((split_audio_with_overlap_ms 18000 10 2).getD (i + 1) (0, 0)).1 ≤
        ((split_audio_with_overlap_ms 18000 10 2).getD i (0, 0)).2) ∧
    split_audio_with_overlap_ms 12000 10 10 = [] :=
  ⟨by decide,
   (C3_overlap_chunker 18000 10 2).2.1 (by decide),
   (C3_overlap_chunker 18000 10 2).2.2.1 (by decide),
   (C3_overlap_chunker 12000 10 10).1 (by decide)⟩

/-! ## Lemmas: the cursor loop enumerates exactly the match positions -/

lemma isPrefixOf_nil_of_ne (tg : List Char) (htg : tg ≠ []) :
    tg.isPrefixOf ([] : List Char) = false := by
  cases tg with
  | nil => exact absurd rfl htg
  | cons c cs => rfl

lemma firstMatchIdx_some_spec (tg : List Char) :
    ∀ (hay : List Char) (i : ℕ), firstMatchIdx tg hay = some i →
      tg.isPrefixOf (hay.drop i) = true ∧
        (∀ j < i, tg.isPrefixOf (hay.drop j) = false) ∧ i ≤ hay.length := by
  intro hay
  induction hay with
  | nil =>
    intro i h
    unfold firstMatchIdx at h
    split at h
    · rename_i hemp
      obtain rfl : (0 : ℕ) = i := Option.some.inj h
      refine ⟨?_, fun j hj => absurd hj (Nat.not_lt_zero j), Nat.le_refl 0⟩
      obtain rfl : tg = [] := List.isEmpty_iff.mp hemp
      rfl
    · exact absurd h (Option.noConfusion)
  | cons c cs ih =>
    intro i h
    unfold firstMatchIdx at h
    split at h
    · rename_i hpre
      obtain rfl : (0 : ℕ) = i := Option.some.inj h
      exact ⟨hpre, fun j hj => absurd hj (Nat.not_lt_zero j), Nat.zero_le _⟩
    · rename_i hpre
      obtain ⟨i', hi', rfl⟩ := Option.map_eq_some'.mp h
      obtain ⟨hm, hmin, hle⟩ := ih i' hi'
      refine ⟨?_, ?_, by simpa using Nat.succ_le_succ hle⟩
      · simpa [List.drop_succ_cons] using hm
      · intro j hj
        cases j with
        | zero => simpa using Bool.eq_false_iff.mpr hpre
        | succ j' =>
          have hj' : j' < i' := by omega
          simpa [List.drop_succ_cons] using hmin j' hj'

lemma firstMatchIdx_none_spec (tg : List Char) :
    ∀ (hay : List Char), firstMatchIdx tg hay = none →
      ∀ j, tg.isPrefixOf (hay.drop j) = false := by
  intro hay
  induction hay with
  | nil =>
    intro h j
    unfold firstMatchIdx at h
    split at h
    · exact absurd h (Option.noConfusion)
    · rename_i hemp
      have htg : tg ≠ [] := fun hh => hemp (by simp [hh])
      simpa [List.drop_nil] using isPrefixOf_nil_of_ne tg htg
  | cons c cs ih =>
    intro h j
    unfold firstMatchIdx at h
    split at h
    · exact absurd h (Option.noConfusion)
    · rename_i hpre
      have hrec : firstMatchIdx tg cs = none := by
        cases hx : firstMatchIdx tg cs with
        | none => rfl
        | some v => rw [hx] at h; exact absurd h (Option.noConfusion)
      cases j with
      | zero => simpa using Bool.eq_false_iff.mpr hpre
      | succ j' => simpa [List.drop_succ_cons] using ih hrec j'

lemma findFrom_some_spec (tg hay : List Char) (start p : ℕ)
    (h : findFrom tg hay start = some p) :
    start ≤ p ∧ p ≤ hay.length ∧ tg.isPrefixOf (hay.drop p) = true ∧
      ∀ j, start ≤ j → j < p → tg.isPrefixOf (hay.drop j) = false := by
  unfold findFrom at h
  split at h
  · exact absurd h (Option.noConfusion)
  · rename_i hstart
    obtain ⟨i, hi, rfl⟩ := Option.map_eq_some'.mp h
    obtain ⟨hm, hmin, hle⟩ := firstMatchIdx_some_spec tg (hay.drop start) i hi
    rw [List.length_drop] at hle
    refine ⟨by omega, by omega, ?_, ?_⟩
    · rw [List.drop_drop] at hm
      rwa [show start + i = i + start by omega] at hm
    · intro j hsj hjp
      have hj' : j - start < i := by omega
      have := hmin (j - start) hj'
      rw [List.drop_drop] at this
      rwa [show start + (j - start) = j by omega] at this

lemma findFrom_none_spec (tg hay : List Char) (start : ℕ)
    (h : findFrom tg hay start = none) :
    ∀ j, start ≤ j → j ≤ hay.length → tg.isPrefixOf (hay.drop j) = false := by
  unfold findFrom at h
  split at h
  · rename_i hstart
    intro j hsj hjl
    omega
  · rename_i hstart
    have hrec : firstMatchIdx tg (hay.drop start) = none := by
      cases hx : firstMatchIdx tg (hay.drop start) with
      | none => rfl
      | some v => rw [hx] at h; exact absurd h (Option.noConfusion)
    intro j hsj _
    have := firstMatchIdx_none_spec tg (hay.drop start) hrec (j - start)
    rw [List.drop_drop] at this
    rwa [show start + (j - start) = j by omega] at this

lemma match_pos_lt (tg hay : List Char) (p : ℕ) (htg : tg ≠ [])
    (hp : tg.isPrefixOf (hay.drop p) = true) : p < hay.length := by
  by_contra hc
  have hdrop : hay.drop p = [] := List.drop_eq_nil_of_le (by omega)
  rw [hdrop, isPrefixOf_nil_of_ne tg htg] at hp
  exact Bool.false_ne_true hp

lemma occAux_eq_filter (tg hay : List Char) (htg : tg ≠ []) :
    ∀ (fuel start : ℕ), hay.length + 1 - start ≤ fuel →
      occAux tg hay start fuel =
        (List.range' start (hay.length - start)).filter
          (fun i => tg.isPrefixOf (hay.drop i)) := by
  intro fuel
  induction fuel with
  | zero =>
    intro start hst
    have h0 : hay.length - start = 0 := by omega
    simp [occAux, h0]
  | succ fuel ih =>
    intro start hst
    rw [occAux]
    cases h : findFrom tg hay start with
    | none =>
      symm
      rw [List.filter_eq_nil_iff]
      intro a ha
      rw [List.mem_range'_1] at ha
      have hfa := findFrom_none_spec tg hay start h a ha.1 (by omega)
      simp [hfa]
    | some p =>
      obtain ⟨hsp, hpl, hmatch, hmin⟩ := findFrom_some_spec tg hay start p h
      have hplt : p < hay.length := match_pos_lt tg hay p htg hmatch
      have h1 : List.range' start (hay.length - start) =
          List.range' start (p - start) ++ List.range' p (hay.length - p) := by
        have happ := List.range'_append start (p - start) (hay.length - p) 1
        simp only [one_mul] at happ
        rw [show start + (p - start) = p by omega] at happ
        rw [show hay.length - p + (p - start) = hay.length - start by omega]
          at happ
        exact happ.symm
      rw [h1, List.filter_append]
      have h2 : (List.range' start (p - start)).filter
          (fun i => tg.isPrefixOf (hay.drop i)) = [] := by
        rw [List.filter_eq_nil_iff]
        intro a ha
        rw [List.mem_range'_1] at ha
        have := hmin a ha.1 (by omega)
        simp [this]
      rw [h2, List.nil_append]
      rw [show hay.length - p = (hay.length - (p + 1)) + 1 by omega,
        List.range'_succ]
      rw [List.filter_cons]
      simp only [hmatch, if_true]
      rw [ih (p + 1) (by omega)]

lemma occurrences_eq_filter (tg hay : List Char) (htg : tg ≠ []) :
    occurrences tg hay =
      (List.range hay.length).filter (fun i => tg.isPrefixOf (hay.drop i)) := by
  unfold occurrences
  rw [occAux_eq_filter tg hay htg (hay.length + 1) 0 (by omega)]
  rw [List.range_eq_range', Nat.sub_zero]

/-! ## C7 — word-timing estimation -/

lemma estimated_duration_nonneg (w : List Char) : 0 ≤ estimated_duration w := by
  unfold estimated_duration
  split_ifs <;> norm_num

/-- C7: for a chunk whose audio duration is `audioLenMs` (the claim's
premise that this equals the window length fixes the window to
`[start, start + audioLenMs/1000)`) and a non-empty text,
`find_word_timing_in_segment` returns one interval per occurrence of the
(lowercased) term in the (lowercased) text — the cursor loop enumerates
exactly the match positions — with relative start
`(offset / total chars) × duration`, the length-based estimated duration
added, the end clipped to the chunk duration and both endpoints shifted by
the chunk start; each interval lies inside the chunk; and on the claim's
scenario (window `[10,20)`, 20-character text, 2-character term at offset
10) the result is exactly `[(15.0, 15.6)]`. -/
theorem C7_word_timing (audioLenMs : ℕ) (text target_word : List Char)
    (segment_start_time : ℚ) (htext : text ≠ []) (htgt : target_word ≠ []) :
    find_word_timing_in_segment audioLenMs text target_word
        segment_start_time =
      ((List.range text.length).filter
          (fun i => (pyLower target_word).isPrefixOf ((pyLower text).drop i))).map
        (fun (pos : ℕ) =>
          (segment_start_time +
            ((pos : ℚ) / (text.length : ℚ)) * ((audioLenMs : ℚ) / 1000),
           segment_start_time +
            min (((pos : ℚ) / (text.length : ℚ)) * ((audioLenMs : ℚ) / 1000) +
              estimated_duration target_word) ((audioLenMs : ℚ) / 1000))) ∧
    (∀ t ∈ find_word_timing_in_segment audioLenMs text target_word
        segment_start_time,
      segment_start_time ≤ t.1 ∧ t.1 ≤ t.2 ∧
        t.2 ≤ segment_start_time + (audioLenMs : ℚ) / 1000) ∧
    find_word_timing_in_segment 10000
        ("啊啊啊啊啊啊啊啊啊啊靠北啊啊啊啊啊啊啊啊".toList) ("靠北".toList) 10 =
      [(15, 156 / 10)] := by
  have hlow_ne : pyLower text ≠ [] := by
    intro hc
    exact htext (List.map_eq_nil_iff.mp hc)
  have htg_ne : pyLower target_word ≠ [] := by
    intro hc
    exact htgt (List.map_eq_nil_iff.mp hc)
  have hlen : (pyLower text).length = text.length := List.length_map _ _
  have hempty : (pyLower text).isEmpty = false := by
    cases hx : pyLower text with
    | nil => exact absurd hx hlow_ne
    | cons a l => rfl
  have hmain : find_word_timing_in_segment audioLenMs text target_word
      segment_start_time =
      ((List.range text.length).filter
          (fun i => (pyLower target_word).isPrefixOf ((pyLower text).drop i))).map
        (fun (pos : ℕ) =>
          (segment_start_time +
            ((pos : ℚ) / (text.length : ℚ)) * ((audioLenMs : ℚ) / 1000),
           segment_start_time +
            min (((pos : ℚ) / (text.length : ℚ)) * ((audioLenMs : ℚ) / 1000) +
              estimated_duration target_word) ((audioLenMs : ℚ) / 1000))) := by
    unfold find_word_timing_in_segment
    simp only [hempty, Bool.false_eq_true, if_false]
    rw [occurrences_eq_filter _ _ htg_ne, hlen]
  refine ⟨hmain, ?_, ?_⟩
  · intro t ht
    rw [hmain] at ht
    obtain ⟨pos, hpos, rfl⟩ := List.mem_map.mp ht
    have hposlt : pos < text.length := by
      have := List.mem_filter.mp hpos
      exact List.mem_range.mp this.1
    have hlenq : (0 : ℚ) < (text.length : ℚ) := by
      have : 0 < text.length := List.length_pos.mpr htext
      exact_mod_cast this
    have hD : (0 : ℚ) ≤ (audioLenMs : ℚ) / 1000 := by positivity
    have hq0 : (0 : ℚ) ≤ (pos : ℚ) / (text.length : ℚ) := by positivity
    have hq1 : (pos : ℚ) / (text.length : ℚ) ≤ 1 := by
      rw [div_le_one hlenq]
      exact_mod_cast le_of_lt hposlt
    have hrel0 : (0 : ℚ) ≤ ((pos : ℚ) / (text.length : ℚ)) *
        ((audioLenMs : ℚ) / 1000) := mul_nonneg hq0 hD
    have hrelD : ((pos : ℚ) / (text.length : ℚ)) * ((audioLenMs : ℚ) / 1000)
        ≤ (audioLenMs : ℚ) / 1000 := mul_le_of_le_one_left hD hq1
    refine ⟨by simpa using hrel0, ?_, ?_⟩
    · simp only
      have := estimated_duration_nonneg target_word
      have hmin : ((pos : ℚ) / (text.length : ℚ)) * ((audioLenMs : ℚ) / 1000)
          ≤ min (((pos : ℚ) / (text.length : ℚ)) *
              ((audioLenMs : ℚ) / 1000) + estimated_duration target_word)
            ((audioLenMs : ℚ) / 1000) :=
        le_min (by linarith) hrelD
      linarith
    · simp only
      have hmin2 : min (((pos : ℚ) / (text.length : ℚ)) *
          ((audioLenMs : ℚ) / 1000) + estimated_duration target_word)
          ((audioLenMs : ℚ) / 1000) ≤ (audioLenMs : ℚ) / 1000 :=
        min_le_right _ _
      linarith
  · have hocc : occurrences (pyLower ("靠北".toList))
        (pyLower ("啊啊啊啊啊啊啊啊啊啊靠北啊啊啊啊啊啊啊啊".toList)) = [10] := by
      decide
    have hemptyc : (pyLower ("啊啊啊啊啊啊啊啊啊啊靠北啊啊啊啊啊啊啊啊".toList)).isEmpty
        = false := by decide
    have hlenc : ((pyLower ("啊啊啊啊啊啊啊啊啊啊靠北啊啊啊啊啊啊啊啊".toList)).length : ℚ)
        = 20 := by norm_num [pyLower]
    have hest : estimated_duration ("靠北".toList) = 6 / 10 := rfl
    unfold find_word_timing_in_segment
    simp only [hemptyc, Bool.false_eq_true, if_false, hocc, List.map_cons,
      List.map_nil, hest, hlenc]
    norm_num

theorem C7_witness :
    ("啊啊啊啊啊啊啊啊啊啊靠北啊啊啊啊啊啊啊啊".toList ≠ [] ∧
      "靠北".toList ≠ []) ∧
    find_word_timing_in_segment 10000
        ("啊啊啊啊啊啊啊啊啊啊靠北啊啊啊啊啊啊啊啊".toList) ("靠北".toList) 10 =
      [(15, 156 / 10)] :=
  ⟨⟨by decide, by decide⟩,
   (C7_word_timing 10000 ("啊啊啊啊啊啊啊啊啊啊靠北啊啊啊啊啊啊啊啊".toList)
     ("靠北".toList) 10 (by decide) (by decide)).2.2⟩

/-! ## C1 — mute-segment list: containment and (non-)sortedness -/

lemma buildSegments_bounds (cfg : PipelineCfg) (c : ChunkObs)
    (dr : DetectionResult) :
    ∀ s ∈ buildSegmentsForChunk cfg c dr,
      c.start_time ≤ s.start_time ∧ s.end_time ≤ c.end_time := by
  intro s hs
  unfold buildSegmentsForChunk at hs
  split_ifs at hs with h1 h2
  · exact absurd hs (List.not_mem_nil s)
  · rw [List.mem_flatMap] at hs
    obtain ⟨word, _, hs⟩ := hs
    rw [List.mem_map] at hs
    obtain ⟨t, _, rfl⟩ := hs
    exact ⟨le_max_left _ _, min_le_left _ _⟩
  · rw [List.mem_singleton] at hs
    subst hs
    exact ⟨le_refl _, le_refl _⟩

lemma mem_pipeline_enh (cfg : PipelineCfg) (chunks : List ChunkObs)
    (s : MuteSegment) (hs : s ∈ process_video_segments_enhanced cfg chunks) :
    ∃ c ∈ chunks, s ∈ process_chunk_enh cfg c := by
  unfold process_video_segments_enhanced at hs
  rw [List.mem_flatten] at hs
  obtain ⟨l, hl, hsl⟩ := hs
  rw [List.mem_map] at hl
  obtain ⟨c, hc, rfl⟩ := hl
  exact ⟨c, hc, hsl⟩

lemma mem_pipeline_base (cfg : PipelineCfg) (chunks : List ChunkObs)
    (s : MuteSegment) (hs : s ∈ process_video_segments cfg chunks) :
    ∃ c ∈ chunks, s ∈ process_chunk cfg c := by
  unfold process_video_segments at hs
  rw [List.mem_flatten] at hs
  obtain ⟨l, hl, hsl⟩ := hs
  rw [List.mem_map] at hl
  obtain ⟨c, hc, rfl⟩ := hl
  exact ⟨c, hc, hsl⟩

lemma process_chunk_enh_bounds (cfg : PipelineCfg) (c : ChunkObs) :
    ∀ s ∈ process_chunk_enh cfg c,
      c.start_time ≤ s.start_time ∧ s.end_time ≤ c.end_time := by
  intro s hs
  exact buildSegments_bounds cfg c _ s hs

lemma process_chunk_base_bounds (cfg : PipelineCfg) (c : ChunkObs) :
    ∀ s ∈ process_chunk cfg c,
      c.start_time ≤ s.start_time ∧ s.end_time ≤ c.end_time := by
  intro s hs
  unfold process_chunk at hs
  split_ifs at hs
  · exact absurd hs (List.not_mem_nil s)
  · exact absurd hs (List.not_mem_nil s)
  · exact buildSegments_bounds cfg c _ s hs

lemma process_chunk_enh_whole_start (cfg : PipelineCfg) (c : ChunkObs)
    (hp : cfg.precise_muting = false) :
    ∀ s ∈ process_chunk_enh cfg c, s.start_time = c.start_time := by
  intro s hs
  unfold process_chunk_enh buildSegmentsForChunk at hs
  rw [hp] at hs
  split_ifs at hs with h1 h2
  · exact absurd hs (List.not_mem_nil s)
  · simp at h2
  · rw [List.mem_singleton] at hs
    subst hs
    rfl

lemma process_chunk_enh_whole_subsingleton (cfg : PipelineCfg) (c : ChunkObs)
    (hp : cfg.precise_muting = false) :
    process_chunk_enh cfg c = [] ∨
      ∃ x, process_chunk_enh cfg c = [x] := by
  unfold process_chunk_enh buildSegmentsForChunk
  rw [hp]
  split_ifs with h1 h2
  · exact Or.inl rfl
  · simp at h2
  · exact Or.inr ⟨_, rfl⟩

lemma process_chunk_whole_start (cfg : PipelineCfg) (c : ChunkObs)
    (hp : cfg.precise_muting = false) :
    ∀ s ∈ process_chunk cfg c, s.start_time = c.start_time := by
  intro s hs
  unfold process_chunk at hs
  split_ifs at hs
  · exact absurd hs (List.not_mem_nil s)
  · exact absurd hs (List.not_mem_nil s)
  · unfold buildSegmentsForChunk at hs
    rw [hp] at hs
    split_ifs at hs with h1 h2
    · exact absurd hs (List.not_mem_nil s)
    · simp at h2
    · rw [List.mem_singleton] at hs
      subst hs
      rfl

lemma process_chunk_whole_subsingleton (cfg : PipelineCfg) (c : ChunkObs)
    (hp : cfg.precise_muting = false) :
    process_chunk cfg c = [] ∨ ∃ x, process_chunk cfg c = [x] := by
  unfold process_chunk buildSegmentsForChunk
  rw [hp]
  split_ifs with h1 h2 h3 h4
  · exact Or.inl rfl
  · exact Or.inl rfl
  · exact Or.inl rfl
  · simp at h4
  · exact Or.inr ⟨_, rfl⟩

/-- C1 (amended): every mute segment either pipeline emits lies within its
originating chunk's own `[start_time, end_time]` bounds — hence, for
`padding ≥ 0` and chunks starting at non-negative times, within
`[window.start - padding, window.end + padding]` clipped to non-negative
bounds; and in whole-window mode (`precise_muting = False`) the list is
emitted in chunk order and is sorted by `start_time`, in both the enhanced
and the base pipeline.  (In precise mode no sort is performed and the list
need not be sorted; see the counterexample.) -/
theorem C1_segment_containment_and_order (cfg : PipelineCfg)
    (chunks : List ChunkObs) :
    (∀ s ∈ process_video_segments_enhanced cfg chunks, ∃ c ∈ chunks,
        c.start_time ≤ s.start_time ∧ s.end_time ≤ c.end_time) ∧
    (∀ s ∈ process_video_segments cfg chunks, ∃ c ∈ chunks,
        c.start_time ≤ s.start_time ∧ s.end_time ≤ c.end_time) ∧
    (0 ≤ cfg.mute_padding → (∀ c ∈ chunks, 0 ≤ c.start_time) →
      ∀ s ∈ process_video_segments_enhanced cfg chunks, ∃ c ∈ chunks,
        max 0 (c.start_time - cfg.mute_padding) ≤ s.start_time ∧
          s.end_time ≤ c.end_time + cfg.mute_padding) ∧
    (cfg.precise_muting = false →
      List.Pairwise (fun a b : ChunkObs => a.start_time ≤ b.start_time)
        chunks →
      List.Pairwise (fun a b : MuteSegment => a.start_time ≤ b.start_time)
        (process_video_segments_enhanced cfg chunks)) ∧
    (cfg.precise_muting = false →
      List.Pairwise (fun a b : ChunkObs => a.start_time ≤ b.start_time)
        chunks →
      List.Pairwise (fun a b : MuteSegment => a.start_time ≤ b.start_time)
        (process_video_segments cfg chunks)) := by
  refine ⟨?_, ?_, ?_, ?_, ?_⟩
  · intro s hs
    obtain ⟨c, hc, hsc⟩ := mem_pipeline_enh cfg chunks s hs
    exact ⟨c, hc, process_chunk_enh_bounds cfg c s hsc⟩
  · intro s hs
    obtain ⟨c, hc, hsc⟩ := mem_pipeline_base cfg chunks s hs
    exact ⟨c, hc, process_chunk_base_bounds cfg c s hsc⟩
  · intro hpad hnn s hs
    obtain ⟨c, hc, hsc⟩ := mem_pipeline_enh cfg chunks s hs
    obtain ⟨h1, h2⟩ := process_chunk_enh_bounds cfg c s hsc
    refine ⟨c, hc, ?_, by linarith⟩
    have hc0 := hnn c hc
    have : c.start_time - cfg.mute_padding ≤ s.start_time := by linarith
    exact max_le (by linarith) this
  · intro hp hpair
    unfold process_video_segments_enhanced
    rw [List.pairwise_flatten]
    constructor
    · intro l hl
      rw [List.mem_map] at hl
      obtain ⟨c, _, rfl⟩ := hl
      rcases process_chunk_enh_whole_subsingleton cfg c hp with h | ⟨x, h⟩ <;>
        simp [h]
    · refine List.Pairwise.map _ ?_ hpair
      intro a b hab x hx y hy
      rw [process_chunk_enh_whole_start cfg a hp x hx,
        process_chunk_enh_whole_start cfg b hp y hy]
      exact hab
  · intro hp hpair
    unfold process_video_segments
    rw [List.pairwise_flatten]
    constructor
    · intro l hl
      rw [List.mem_map] at hl
      obtain ⟨c, _, rfl⟩ := hl
      rcases process_chunk_whole_subsingleton cfg c hp with h | ⟨x, h⟩ <;>
        simp [h]
    · refine List.Pairwise.map _ ?_ hpair
      intro a b hab x hx y hy
      rw [process_chunk_whole_start cfg a hp x hx,
        process_chunk_whole_start cfg b hp y hy]
      exact hab

/-- Concrete pipeline configuration in whole-window mode, for witnesses. -/
def demo_whole_cfg : PipelineCfg :=
  { detector := { adaptive_weight := 3 / 10
                  use_adaptive_detection := false
                  is_trained := false
                  training_accuracy := 0 }
    precise_muting := false
    mute_padding := 1 / 2
    use_fuzzy_matching := true }

/-- The same configuration with precise muting switched on. -/
def demo_precise_cfg : PipelineCfg :=
  { detector := { adaptive_weight := 3 / 10
                  use_adaptive_detection := false
                  is_trained := false
                  training_accuracy := 0 }
    precise_muting := true
    mute_padding := 1 / 2
    use_fuzzy_matching := true }

/-- Two chronologically ordered chunk observations. -/
def demo_chunks : List ChunkObs :=
  [{ start_time := 0, end_time := 10, audioLenMs := 10000,
     text := "幹".toList, adaptive_prob := 0, quality_ok := true },
   { start_time := 10, end_time := 20, audioLenMs := 10000,
     text := "靠北".toList, adaptive_prob := 0, quality_ok := true }]

/-- A single chunk whose text holds two distinct dictionary terms, the
first-iterated term occurring both before and after the other. -/
def demo_mixed_chunk : ChunkObs :=
  { start_time := 0, end_time := 10, audioLenMs := 10000,
    text := "幹靠北幹".toList, adaptive_prob := 0, quality_ok := true }

theorem C1_witness :
    ((0 : ℚ) ≤ demo_whole_cfg.mute_padding ∧
      demo_whole_cfg.precise_muting = false) ∧
    List.Pairwise (fun a b : MuteSegment => a.start_time ≤ b.start_time)
      (process_video_segments_enhanced demo_whole_cfg demo_chunks) ∧
    List.Pairwise (fun a b : MuteSegment => a.start_time ≤ b.start_time)
      (process_video_segments demo_whole_cfg demo_chunks) :=
  ⟨⟨by norm_num [demo_whole_cfg], rfl⟩,
   (C1_segment_containment_and_order demo_whole_cfg demo_chunks).2.2.2.1
     rfl (by norm_num [demo_chunks, List.pairwise_cons]),
   (C1_segment_containment_and_order demo_whole_cfg demo_chunks).2.2.2.2
     rfl (by norm_num [demo_chunks, List.pairwise_cons])⟩

/-- C1 counterexample: in precise-muting mode, one chunk `[0,10)` whose
text `幹靠北幹` contains the dictionary term `幹` (at character offsets 0
and 3) and the term `靠北` (at offset 1) makes the pipeline emit segments
with start times `[0, 7, 2]` — grouped by word, not by time — so the final
mute-segment list handed to the rendering collaborator is not sorted by
start; no sort is performed anywhere in either pipeline.  (The dictionary
iteration order is deterministic here; even under a different
`list(set(...))` ordering the terms' interleaved offsets keep the output
unsorted.) -/
theorem C1_counterexample :
    (process_video_segments_enhanced demo_precise_cfg [demo_mixed_chunk]).map
        (fun (s : MuteSegment) => s.start_time) = ([0, 7, 2] : List ℚ) ∧
    ¬ List.Pairwise (fun a b : MuteSegment => a.start_time ≤ b.start_time)
      (process_video_segments_enhanced demo_precise_cfg [demo_mixed_chunk]) := by
  have hfil : ((detect_profanity_enh demo_precise_cfg.detector
      ("幹靠北幹".toList) true 0 true).found_profanity.filter
        (· != training_marker)) = ["幹".toList, "靠北".toList] := by decide
  have hne : (detect_profanity_enh demo_precise_cfg.detector
      ("幹靠北幹".toList) true 0 true).found_profanity.isEmpty = false := by
    decide
  have hwt1 : find_word_timing_in_segment 10000 ("幹靠北幹".toList)
      ("幹".toList) 0 = [(0, 6 / 10), (15 / 2, 81 / 10)] := by
    have hocc : occurrences (pyLower ("幹".toList))
        (pyLower ("幹靠北幹".toList)) = [0, 3] := by decide
    have hempty : (pyLower ("幹靠北幹".toList)).isEmpty = false := by decide
    have hlen : ((pyLower ("幹靠北幹".toList)).length : ℚ) = 4 := by
      norm_num [pyLower]
    have hest : estimated_duration ("幹".toList) = 6 / 10 := rfl
    unfold find_word_timing_in_segment
    simp only [hempty, Bool.false_eq_true, if_false, hocc, List.map_cons,
      List.map_nil, hest, hlen]
    norm_num
  have hwt2 : find_word_timing_in_segment 10000 ("幹靠北幹".toList)
      ("靠北".toList) 0 = [(5 / 2, 31 / 10)] := by
    have hocc : occurrences (pyLower ("靠北".toList))
        (pyLower ("幹靠北幹".toList)) = [1] := by decide
    have hempty : (pyLower ("幹靠北幹".toList)).isEmpty = false := by decide
    have hlen : ((pyLower ("幹靠北幹".toList)).length : ℚ) = 4 := by
      norm_num [pyLower]
    have hest : estimated_duration ("靠北".toList) = 6 / 10 := rfl
    unfold find_word_timing_in_segment
    simp only [hempty, Bool.false_eq_true, if_false, hocc, List.map_cons,
      List.map_nil, hest, hlen]
    norm_num
  have hrun : (process_video_segments_enhanced demo_precise_cfg
      [demo_mixed_chunk]).map (fun (s : MuteSegment) => s.start_time) =
      ([0, 7, 2] : List ℚ) := by
    show ((List.map (process_chunk_enh demo_precise_cfg)
        [demo_mixed_chunk]).flatten).map
        (fun (s : MuteSegment) => s.start_time) = ([0, 7, 2] : List ℚ)
    rw [List.map_cons, List.map_nil]
    show ((process_chunk_enh demo_precise_cfg demo_mixed_chunk) ++ []).map
        (fun (s : MuteSegment) => s.start_time) = ([0, 7, 2] : List ℚ)
    rw [List.append_nil]
    show (buildSegmentsForChunk demo_precise_cfg demo_mixed_chunk
        (detect_profanity_enh demo_precise_cfg.detector ("幹靠北幹".toList)
          true 0 true)).map
        (fun (s : MuteSegment) => s.start_time) = ([0, 7, 2] : List ℚ)
    unfold buildSegmentsForChunk
    rw [hne]
    have hpm : demo_precise_cfg.precise_muting = true := rfl
    have ha : demo_mixed_chunk.audioLenMs = 10000 := rfl
    have htx : demo_mixed_chunk.text = "幹靠北幹".toList := rfl
    have hst : demo_mixed_chunk.start_time = (0 : ℚ) := rfl
    have hen : demo_mixed_chunk.end_time = (10 : ℚ) := rfl
    simp only [Bool.false_eq_true, if_false, hpm, if_true, ha, htx, hst, hen,
      hfil]
    rw [List.flatMap_cons, List.flatMap_cons, List.flatMap_nil]
    rw [hwt1, hwt2]
    simp only [List.map_cons, List.map_nil, List.map_append, List.append_nil]
    norm_num [max_def, demo_precise_cfg]
  refine ⟨hrun, ?_⟩
  intro hpair
  have hm : List.Pairwise (fun a b : ℚ => a ≤ b)
      ((process_video_segments_enhanced demo_precise_cfg
        [demo_mixed_chunk]).map (fun (s : MuteSegment) => s.start_time)) :=
    List.pairwise_map.mpr hpair
  rw [hrun] at hm
  norm_num [List.pairwise_cons] at hm

/-! ## C9 — graceful degradation (empty transcription, untrained scorer) -/

lemma process_chunk_skip (cfg : PipelineCfg) (c : ChunkObs)
    (h : (c.quality_ok && !c.text.isEmpty) = false) :
    process_chunk cfg c = [] := by
  unfold process_chunk
  cases hq : c.quality_ok with
  | false => simp [hq]
  | true =>
    cases hte : c.text.isEmpty with
    | true => simp [hq, hte]
    | false => rw [hq, hte] at h; simp at h

/-- C9: in the base pipeline, a chunk whose quality check fails or whose
transcription is empty contributes nothing and the loop continues — the run
equals the run on the remaining chunks (no hard failure; the embedded
pipeline is a total function into segment lists) — and an unavailable
(disabled or untrained) adaptive scorer returns `([], 0.0)`, i.e. no hit
from that method, for every probability the external classifier would
yield. -/
theorem C9_graceful_degradation (cfg : PipelineCfg) (chunks : List ChunkObs) :
    process_video_segments cfg chunks =
      process_video_segments cfg
        (chunks.filter fun c => c.quality_ok && !c.text.isEmpty) ∧
    (∀ c : ChunkObs, c.text = [] → process_chunk cfg c = []) ∧
    (∀ (cfg' : DetectorCfg) (prob : ℚ), cfg'.is_trained = false →
      detect_profanity_adaptive cfg' prob = ([], 0)) ∧
    (∀ (cfg' : DetectorCfg) (prob : ℚ), cfg'.use_adaptive_detection = false →
      detect_profanity_adaptive cfg' prob = ([], 0)) := by
  refine ⟨?_, ?_, ?_, ?_⟩
  · induction chunks with
    | nil => rfl
    | cons c cs ih =>
      by_cases h : (c.quality_ok && !c.text.isEmpty) = true
      · unfold process_video_segments at ih ⊢
        rw [List.filter_cons, h]
        simp only [if_true, List.map_cons, List.flatten_cons]
        rw [ih]
      · have hskip := process_chunk_skip cfg c (by simpa using h)
        unfold process_video_segments at ih ⊢
        rw [List.filter_cons]
        simp only [h, if_false, List.map_cons, List.flatten_cons, hskip,
          List.nil_append, Bool.false_eq_true]
        exact ih
  · intro c hc
    apply process_chunk_skip
    rw [hc]
    simp
  · intro cfg' prob h
    unfold detect_profanity_adaptive
    rw [if_pos]
    rw [h]
    simp
  · intro cfg' prob h
    unfold detect_profanity_adaptive
    rw [if_pos]
    rw [h]
    simp

/-- A chunk observation whose transcription came back empty. -/
def demo_empty_chunk : ChunkObs :=
  { start_time := 0, end_time := 10, audioLenMs := 10000,
    text := [], adaptive_prob := 1 / 2, quality_ok := true }

theorem C9_witness :
    process_video_segments demo_whole_cfg [demo_empty_chunk] =
      process_video_segments demo_whole_cfg
        ([demo_empty_chunk].filter fun c => c.quality_ok && !c.text.isEmpty) ∧
    process_chunk demo_whole_cfg demo_empty_chunk = [] ∧
    detect_profanity_adaptive
      { adaptive_weight := 7 / 10, use_adaptive_detection := true,
        is_trained := false, training_accuracy := 0 } (1 / 2) = ([], 0) :=
  ⟨(C9_graceful_degradation demo_whole_cfg [demo_empty_chunk]).1,
   (C9_graceful_degradation demo_whole_cfg [demo_empty_chunk]).2.1
     demo_empty_chunk rfl,
   (C9_graceful_degradation demo_whole_cfg []).2.2.1
     { adaptive_weight := 7 / 10, use_adaptive_detection := true,
       is_trained := false, training_accuracy := 0 } (1 / 2) rfl⟩

/-! ## C2 — fuzzy matcher -/

lemma filterMap_find_eq_filter_any {α β : Type} (l : List (α × List β))
    (q : β → Bool) :
    (l.filterMap fun tp => if (tp.2.find? q).isSome then some tp.1 else none) =
      (l.filter fun tp => tp.2.any q).map Prod.fst := by
  induction l with
  | nil => rfl
  | cons a l ih =>
    have heq : (a.2.find? q).isSome = a.2.any q := by
      cases hf : a.2.find? q with
      | none =>
        have hnone := List.find?_eq_none.mp hf
        symm
        simp only [Option.isSome_none]
        rw [Bool.eq_false_iff]
        intro hany
        obtain ⟨x, hx, hqx⟩ := List.any_eq_true.mp hany
        exact (hnone x hx) hqx
      | some v =>
        have hv := List.find?_some hf
        have hmem := List.mem_of_find?_eq_some hf
        symm
        simp only [Option.isSome_some]
        exact List.any_eq_true.mpr ⟨v, hmem, hv⟩
    by_cases h : a.2.any q = true
    · have hf : (fun tp : α × List β =>
          if (List.find? q tp.2).isSome = true then some tp.1 else none) a
          = some a.1 := by simp [heq, h]
      rw [@List.filterMap_cons_some _ _ (fun tp : α × List β =>
        if (List.find? q tp.2).isSome = true then some tp.1 else none)
        a l a.1 hf, List.filter_cons]
      simp only [h, if_true, List.map_cons]
      rw [ih]
    · have h' : a.2.any q = false := Bool.eq_false_iff.mpr h
      have hf : (fun tp : α × List β =>
          if (List.find? q tp.2).isSome = true then some tp.1 else none) a
          = none := by simp [heq, h']
      rw [@List.filterMap_cons_none _ _ (fun tp : α × List β =>
        if (List.find? q tp.2).isSome = true then some tp.1 else none)
        a l hf, List.filter_cons]
      simp only [h', Bool.false_eq_true, if_false]
      exact ih

/-- C2: the enhanced fuzzy matcher cleans the text (lowercase, punctuation
stripped) and returns exactly the canonical terms for which some pattern in
the term's ordered pattern list matches the cleaned text, each term
reported once (the inner loop stops at the first matching pattern); the
class pattern for `靠北` applied to the cleaned text `考杯啦` yields exactly
`["靠北"]`.  The base detector's `detect_profanity_fuzzy`, however, ends in
a bare `return`: on `考北` it internally builds `["靠北"]` (and logs the
match) yet returns Python `None`, so its callers never see any fuzzy
match — the claim describes the intended behaviour, which
`profanity_detector.py` line 109 violates. -/
theorem C2_fuzzy_matcher :
    (∀ text : List Char, detect_profanity_fuzzy_enh text =
      ((profanity_patterns_enh.filter fun tp =>
          tp.2.any fun p => classSearch p (pyClean text)).map Prod.fst)) ∧
    detect_profanity_fuzzy ("考北".toList) = none ∧
    detect_profanity_fuzzy_found ("考北".toList) = ["靠北".toList] ∧
    detect_profanity_fuzzy_enh ("考杯啦".toList) = ["靠北".toList] := by
  refine ⟨fun text => ?_, rfl, by decide, by decide⟩
  unfold detect_profanity_fuzzy_enh
  exact filterMap_find_eq_filter_any _ _

end WordRecog
